import Mathlib

/-!
Verification of the experience-rule store, candidate workflow, auto-candidate
harvester and observability log buffer of the Starriver-SuperBrain repository
(`app/routes/v2_3/experience.py` and `app/routes/v2_3/observability.py`).

The Python code is shallowly embedded: dictionaries become insertion-ordered
association lists (Python 3.7+ dict semantics), `uuid4()` / `datetime.now()`
become explicit parameters, Python floats become rationals, timestamps become
integers, and exceptions become `Option` results.  SHA-256 (`hashlib.sha256`)
is implemented executably below (FIPS 180-4) so fingerprints are computed for
real.
-/

namespace SRB

/- Python floats are modelled as rationals; Batteries marks rational
arithmetic `irreducible`, which only blocks elaborator-side evaluation —
restore `semireducible` locally so `decide` can evaluate scores. -/
attribute [local semireducible] Rat.add Rat.mul Rat.inv Rat.sub

set_option maxRecDepth 16000

/-! ## Python-style string helpers (ASCII model of str.lower/str.upper/str.strip) -/

def lowerChar (c : Char) : Char :=
  if 'A' ≤ c ∧ c ≤ 'Z' then Char.ofNat (c.toNat + 32) else c

def upperChar (c : Char) : Char :=
  if 'a' ≤ c ∧ c ≤ 'z' then Char.ofNat (c.toNat - 32) else c

def pyLower (s : String) : String := String.mk (s.toList.map lowerChar)

def pyUpper (s : String) : String := String.mk (s.toList.map upperChar)

def isPySpace (c : Char) : Bool :=
  c = ' ' ∨ c = '\t' ∨ c = '\n' ∨ c = '\r' ∨ c = '\x0b' ∨ c = '\x0c'

def pyStrip (s : String) : String :=
  String.mk (((s.toList.dropWhile isPySpace).reverse.dropWhile isPySpace).reverse)

/-- Python's `needle in hay` substring test on lists of characters. -/
def subList (needle hay : List Char) : Bool :=
  match hay with
  | [] => needle.isEmpty
  | _ :: t => needle.isPrefixOf hay || subList needle t

/-- Python's `needle in hay` for strings (contiguous substring). -/
def pyIn (needle hay : String) : Bool := subList needle.toList hay.toList

/-- Python's `",".join(xs)`. -/
def joinComma : List String → String
  | [] => ""
  | [x] => x
  | x :: y :: t => x ++ "," ++ joinComma (y :: t)

/-- Python truthiness of an optional string (`None` and `""` are falsy). -/
def optTruthy : Option String → Bool
  | none => false
  | some s => s ≠ ""

/-- Python `a or b` for an optional string versus a default. -/
def pyOrStr (a : Option String) (b : String) : String :=
  match a with
  | none => b
  | some s => if s = "" then b else s

/-- Python's `key.split(":", 1)`: the part before the first colon and the rest. -/
def splitColon1 (s : String) : String × String :=
  let l := s.toList
  let before := l.takeWhile (· ≠ ':')
  let after := (l.dropWhile (· ≠ ':')).drop 1
  (String.mk before, String.mk after)

/-! ## Insertion-ordered dictionaries (Python 3.7+ `dict`)

A Python `dict` keeps keys in first-insertion order; assigning to an existing
key overwrites in place, assigning a new key appends. -/

def dictGet {α : Type} (m : List (String × α)) (k : String) : Option α :=
  (m.find? (fun p => p.1 = k)).map (·.2)

def dictHas {α : Type} (m : List (String × α)) (k : String) : Bool :=
  m.any (fun p => p.1 = k)

def dictSet {α : Type} (m : List (String × α)) (k : String) (v : α) : List (String × α) :=
  if dictHas m k then m.map (fun p => if p.1 = k then (k, v) else p)
  else m ++ [(k, v)]

def dictPop {α : Type} (m : List (String × α)) (k : String) : List (String × α) :=
  m.filter (fun p => p.1 ≠ k)

def dictValues {α : Type} (m : List (String × α)) : List α := m.map (·.2)

/-! ## SHA-256 (FIPS 180-4), executable over byte lists -/

def w32 (n : Nat) : Nat := n % 4294967296

def rotr (n x : Nat) : Nat := w32 ((x >>> n) ||| (x <<< (32 - n)))

def bsig0 (x : Nat) : Nat := (rotr 2 x) ^^^ (rotr 13 x) ^^^ (rotr 22 x)

def bsig1 (x : Nat) : Nat := (rotr 6 x) ^^^ (rotr 11 x) ^^^ (rotr 25 x)

def ssig0 (x : Nat) : Nat := (rotr 7 x) ^^^ (rotr 18 x) ^^^ (x >>> 3)

def ssig1 (x : Nat) : Nat := (rotr 17 x) ^^^ (rotr 19 x) ^^^ (x >>> 10)

def chf (x y z : Nat) : Nat := (x &&& y) ^^^ ((x ^^^ 4294967295) &&& z)

def maj (x y z : Nat) : Nat := (x &&& y) ^^^ (x &&& z) ^^^ (y &&& z)

def shaK : List Nat :=
  [0x428a2f98, 0x71374491, 0xb5c0fbcf, 0xe9b5dba5, 0x3956c25b, 0x59f111f1, 0x923f82a4, 0xab1c5ed5] ++
  [0xd807aa98, 0x12835b01, 0x243185be, 0x550c7dc3, 0x72be5d74, 0x80deb1fe, 0x9bdc06a7, 0xc19bf174] ++
  [0xe49b69c1, 0xefbe4786, 0x0fc19dc6, 0x240ca1cc, 0x2de92c6f, 0x4a7484aa, 0x5cb0a9dc, 0x76f988da] ++
  [0x983e5152, 0xa831c66d, 0xb00327c8, 0xbf597fc7, 0xc6e00bf3, 0xd5a79147, 0x06ca6351, 0x14292967] ++
  [0x27b70a85, 0x2e1b2138, 0x4d2c6dfc, 0x53380d13, 0x650a7354, 0x766a0abb, 0x81c2c92e, 0x92722c85] ++
  [0xa2bfe8a1, 0xa81a664b, 0xc24b8b70, 0xc76c51a3, 0xd192e819, 0xd6990624, 0xf40e3585, 0x106aa070] ++
  [0x19a4c116, 0x1e376c08, 0x2748774c, 0x34b0bcb5, 0x391c0cb3, 0x4ed8aa4a, 0x5b9cca4f, 0x682e6ff3] ++
  [0x748f82ee, 0x78a5636f, 0x84c87814, 0x8cc70208, 0x90befffa, 0xa4506ceb, 0xbef9a3f7, 0xc67178f2]

/-- Append the 1-bit marker, zero padding and the 64-bit big-endian bit length. -/
def padBytes (msg : List Nat) : List Nat :=
  let len := msg.length
  let zeros := (119 - len % 64) % 64
  let bitLen := len * 8
  msg ++ [128] ++ List.replicate zeros 0 ++
    [(bitLen >>> 56) &&& 255, (bitLen >>> 48) &&& 255, (bitLen >>> 40) &&& 255,
     (bitLen >>> 32) &&& 255, (bitLen >>> 24) &&& 255, (bitLen >>> 16) &&& 255,
     (bitLen >>> 8) &&& 255, bitLen &&& 255]

def bytesToWords : List Nat → List Nat
  | b0 :: b1 :: b2 :: b3 :: rest =>
      ((b0 <<< 24) ||| (b1 <<< 16) ||| (b2 <<< 8) ||| b3) :: bytesToWords rest
  | _ => []

def wordsToBlocks : List Nat → List (List Nat)
  | w0 :: w1 :: w2 :: w3 :: w4 :: w5 :: w6 :: w7 ::
    w8 :: w9 :: w10 :: w11 :: w12 :: w13 :: w14 :: w15 :: rest =>
      [w0, w1, w2, w3, w4, w5, w6, w7, w8, w9, w10, w11, w12, w13, w14, w15] ::
        wordsToBlocks rest
  | _ => []

/-- Message-schedule extension; `acc` holds the schedule so far, newest first. -/
def extendSched (acc : List Nat) : Nat → List Nat
  | 0 => acc.reverse
  | n + 1 =>
      let w := w32 (ssig1 (acc.getD 1 0) + acc.getD 6 0 + ssig0 (acc.getD 14 0) + acc.getD 15 0)
      extendSched (w :: acc) n

def schedule (block : List Nat) : List Nat := extendSched block.reverse 48

structure Hash8 where
  a : Nat
  b : Nat
  c : Nat
  d : Nat
  e : Nat
  f : Nat
  g : Nat
  h : Nat
  deriving DecidableEq

def shaH0 : Hash8 :=
  ⟨0x6a09e667, 0xbb67ae85, 0x3c6ef372, 0xa54ff53a, 0x510e527f, 0x9b05688c, 0x1f83d9ab, 0x5be0cd19⟩

def shaRound (st : Hash8) (kw : Nat) : Hash8 :=
  let t1 := w32 (st.h + bsig1 st.e + chf st.e st.f st.g + kw)
  let t2 := w32 (bsig0 st.a + maj st.a st.b st.c)
  ⟨w32 (t1 + t2), st.a, st.b, st.c, w32 (st.d + t1), st.e, st.f, st.g⟩

def processBlock (st : Hash8) (block : List Nat) : Hash8 :=
  let kws := (shaK.zip (schedule block)).map (fun p => w32 (p.1 + p.2))
  let fin := kws.foldl shaRound st
  ⟨w32 (st.a + fin.a), w32 (st.b + fin.b), w32 (st.c + fin.c), w32 (st.d + fin.d),
   w32 (st.e + fin.e), w32 (st.f + fin.f), w32 (st.g + fin.g), w32 (st.h + fin.h)⟩

def sha256Words (msg : List Nat) : List Nat :=
  let st := (wordsToBlocks (bytesToWords (padBytes msg))).foldl processBlock shaH0
  [st.a, st.b, st.c, st.d, st.e, st.f, st.g, st.h]

def hexDigit (n : Nat) : Char :=
  if n < 10 then Char.ofNat (48 + n) else Char.ofNat (87 + n)

def wordHex8 (w : Nat) : List Char :=
  [hexDigit ((w >>> 28) &&& 15), hexDigit ((w >>> 24) &&& 15),
   hexDigit ((w >>> 20) &&& 15), hexDigit ((w >>> 16) &&& 15),
   hexDigit ((w >>> 12) &&& 15), hexDigit ((w >>> 8) &&& 15),
   hexDigit ((w >>> 4) &&& 15), hexDigit (w &&& 15)]

/-- `hashlib.sha256(bytes).hexdigest()`. -/
def sha256hex (msg : List Nat) : String :=
  String.mk (((sha256Words msg).map wordHex8).flatten)

/-- UTF-8 encoding of one character (`str.encode("utf-8")`). -/
def utf8Char (c : Char) : List Nat :=
  let n := c.toNat
  if n < 128 then [n]
  else if n < 2048 then [192 + n / 64, 128 + n % 64]
  else if n < 65536 then [224 + n / 4096, 128 + (n / 64) % 64, 128 + n % 64]
  else [240 + n / 262144, 128 + (n / 4096) % 64, 128 + (n / 64) % 64, 128 + n % 64]

def utf8Bytes (s : String) : List Nat := (s.toList.map utf8Char).flatten

/-- FIPS 180-4 test vector, kernel-evaluated: validates the implementation. -/
theorem sha256_testvector_abc :
    sha256hex (utf8Bytes "abc") =
      "ba7816bf8f01cfea414140de5dae2223b00361a396177a9cb410ff61f20015ad" := by
  decide

/-! ## `ExperienceRule` (experience.py, class ExperienceRule)

Pydantic defaults are structure-field defaults.  Python floats are modelled as
rationals; `uuid4()` and `datetime.now(...).isoformat()` are explicit `genId` /
`nowS` parameters. -/

structure ExperienceRule where
  id : Option String := none
  title : String
  content : String
  category : Option String := some "general"
  tags : List String := []
  sources : List String := []
  version : String := "v1"
  confidence : ℚ := 7/10
  weight : ℚ := 1
  status : String := "active"
  created_at : Option String := none
  updated_at : Option String := none
  fingerprint : Option String := none
  deriving DecidableEq, Repr

/-! ## `ExperienceStore` (experience.py)

`_by_id` and `_id_by_fp` are insertion-ordered dictionaries.  The per-store
`Lock` serializes each call, so single calls are modelled as pure functions;
a raised exception (`KeyError`) is modelled as `none`. -/

structure ExperienceStore where
  by_id : List (String × ExperienceRule)
  id_by_fp : List (String × String)
  deriving DecidableEq, Repr

def emptyStore : ExperienceStore := ⟨[], []⟩

/-- `ExperienceStore.make_fingerprint`: sha256 hexdigest of the trimmed,
lower-cased title, a newline, and the trimmed, lower-cased content. -/
def ExperienceStore.make_fingerprint (title content : String) : String :=
  sha256hex (utf8Bytes (pyLower (pyStrip title) ++ "\n" ++ pyLower (pyStrip content)))

/-- `ExperienceRule.ensure_ids`: fills missing id / created_at, refreshes
updated_at, and fills a missing fingerprint from title+content. -/
def ExperienceRule.ensure_ids (r : ExperienceRule) (genId nowS : String) : ExperienceRule :=
  let r1 := if optTruthy r.id then r else { r with id := some genId }
  let r2 := if optTruthy r1.created_at then r1 else { r1 with created_at := some nowS }
  let r3 := { r2 with updated_at := some nowS }
  if optTruthy r3.fingerprint then r3
  else { r3 with fingerprint := some (ExperienceStore.make_fingerprint r3.title r3.content) }

/-- `ExperienceStore.add`.  The dedup branch looks the indexed id up in
`_by_id`; a missing id there raises `KeyError` in Python (`none` here). -/
def ExperienceStore.add (s : ExperienceStore) (rule : ExperienceRule)
    (dedup upsert : Bool) (genId nowS : String) :
    Option (ExperienceStore × ExperienceRule) :=
  let rule := rule.ensure_ids genId nowS
  let fp := pyOrStr rule.fingerprint (ExperienceStore.make_fingerprint rule.title rule.content)
  if dedup ∧ dictHas s.id_by_fp fp then
    match dictGet s.id_by_fp fp with
    | some exId =>
        match dictGet s.by_id exId with
        | some ex => some (s, ex)
        | none => none
    | none => none
  else
    let rid := (rule.id).getD ""
    let rule :=
      if upsert ∧ dictHas s.by_id rid then
        match dictGet s.by_id rid with
        | some old =>
            { rule with created_at := if optTruthy old.created_at then old.created_at
                                      else rule.created_at }
        | none => rule
      else rule
    some ({ by_id := dictSet s.by_id rid rule, id_by_fp := dictSet s.id_by_fp fp rid }, rule)

def ExperienceStore.get (s : ExperienceStore) (id : String) : Option ExperienceRule :=
  dictGet s.by_id id

/-- A partial patch (`Dict[str, Any]`): `None` values are skipped. -/
structure RulePatch where
  id : Option String := none
  title : Option String := none
  content : Option String := none
  category : Option String := none
  tags : Option (List String) := none
  sources : Option (List String) := none
  version : Option String := none
  confidence : Option ℚ := none
  weight : Option ℚ := none
  status : Option String := none
  created_at : Option String := none
  updated_at : Option String := none
  fingerprint : Option String := none
  deriving DecidableEq, Repr

/-- `data.update(\x7bk: v for k, v in patch.items() if v is not None\x7d)`. -/
def applyPatch (cur : ExperienceRule) (p : RulePatch) : ExperienceRule :=
  { id := match p.id with | some v => some v | none => cur.id
    title := p.title.getD cur.title
    content := p.content.getD cur.content
    category := match p.category with | some v => some v | none => cur.category
    tags := p.tags.getD cur.tags
    sources := p.sources.getD cur.sources
    version := p.version.getD cur.version
    confidence := p.confidence.getD cur.confidence
    weight := p.weight.getD cur.weight
    status := p.status.getD cur.status
    created_at := match p.created_at with | some v => some v | none => cur.created_at
    updated_at := match p.updated_at with | some v => some v | none => cur.updated_at
    fingerprint := match p.fingerprint with | some v => some v | none => cur.fingerprint }

/-- `ExperienceStore.update`: `KeyError("not_found")` on an unknown id is
`none`; otherwise applies non-null patch fields, refreshes updated_at,
recomputes the fingerprint and re-points the fingerprint index. -/
def ExperienceStore.update (s : ExperienceStore) (id : String) (patch : RulePatch)
    (nowS : String) : Option (ExperienceStore × ExperienceRule) :=
  match dictGet s.by_id id with
  | none => none
  | some cur =>
      let upd0 := applyPatch cur patch
      let fp := ExperienceStore.make_fingerprint upd0.title upd0.content
      let upd := { upd0 with updated_at := some nowS, fingerprint := some fp }
      some ({ by_id := dictSet s.by_id id upd, id_by_fp := dictSet s.id_by_fp fp id }, upd)

/-- `ExperienceStore.delete`: removes the row and the fingerprint-index entry
only if that entry still points at this id. -/
def ExperienceStore.delete (s : ExperienceStore) (id : String) :
    ExperienceStore × Bool :=
  match dictGet s.by_id id with
  | none => (s, false)
  | some cur =>
      let s1 : ExperienceStore := { s with by_id := dictPop s.by_id id }
      let fp := pyOrStr cur.fingerprint (ExperienceStore.make_fingerprint cur.title cur.content)
      if dictGet s1.id_by_fp fp = some id then
        ({ s1 with id_by_fp := dictPop s1.id_by_fp fp }, true)
      else (s1, true)

def ExperienceStore.list_all (s : ExperienceStore) : List ExperienceRule :=
  dictValues s.by_id

/-! ## `ExperienceStore.search` -/

/-- One pass over `_by_id.values()` applying the conjunctive filters and
accumulating `(score, rule)` pairs in discovery order. -/
def searchScan (ql tagl catl stl : String) :
    List ExperienceRule → List (ℚ × ExperienceRule)
  | [] => []
  | r :: rest =>
      let rest' := searchScan ql tagl catl stl rest
      if catl ≠ "" ∧ pyLower (pyOrStr r.category "") ≠ catl then rest'
      else if stl ≠ "" ∧ pyLower r.status ≠ stl then rest'
      else if tagl ≠ "" ∧ ¬ pyIn tagl (joinComma (r.tags.map pyLower)) then rest'
      else if ql ≠ "" ∧ ¬ (pyIn ql (pyLower r.title) ∨ pyIn ql (pyLower r.content)) then rest'
      else
        let base : ℚ :=
          if ql ≠ "" then
            (if pyIn ql (pyLower r.title) then 2 else 0) +
              (if pyIn ql (pyLower r.content) then 1 else 0)
          else 0
        (base + (r.confidence * (1/2) + r.weight * (1/2)), r) :: rest'

/-- Stable insertion of the earliest element into a descending-sorted list:
an earlier element goes before any equal-scored later one. -/
def insDesc {α β : Type} [LinearOrder β] (key : α → β) (x : α) : List α → List α
  | [] => [x]
  | y :: ys => if key y ≤ key x then x :: y :: ys else y :: insDesc key x ys

/-- Stable descending sort, the semantics of Python's stable
`xs.sort(key=..., reverse=True)`. -/
def stableSortDesc {α β : Type} [LinearOrder β] (key : α → β) : List α → List α
  | [] => []
  | x :: xs => insDesc key x (stableSortDesc key xs)

/-- `ExperienceStore.search`: conjunctive filters, ranked stable-descending,
truncated to `max(1, min(limit, 200))`. -/
def ExperienceStore.search (s : ExperienceStore)
    (q tag category status : Option String) (limit : Int) : List ExperienceRule :=
  let ql := pyLower (pyStrip (pyOrStr q ""))
  let tagl := pyLower (pyStrip (pyOrStr tag ""))
  let catl := pyLower (pyStrip (pyOrStr category ""))
  let stl := pyLower (pyStrip (pyOrStr status ""))
  let res := searchScan ql tagl catl stl (dictValues s.by_id)
  ((stableSortDesc (·.1) res).take (max 1 (min limit 200)).toNat).map (·.2)

/-! ## Candidate workflow routes (experience.py)

The telemetry side effects of these handlers (counters, gauges, log entries)
are best-effort and do not touch the store; the wrappers below model the
store-level behaviour the claims are about.  A raised `KeyError` (mapped to a
404 NotFound response by the handler) is `none`. -/

/-- `POST /candidates`: forces `status = "draft"` before `store.add`. -/
def add_candidate (s : ExperienceStore) (req : ExperienceRule) (dedup upsert : Bool)
    (genId nowS : String) : Option (ExperienceStore × ExperienceRule) :=
  ExperienceStore.add s { req with status := "draft" } dedup upsert genId nowS

/-- `POST /candidates/.../approve`: `store.update(id, {"status": "active"})`. -/
def approve_candidate (s : ExperienceStore) (rule_id : String) (nowS : String) :
    Option (ExperienceStore × ExperienceRule) :=
  ExperienceStore.update s rule_id { status := some "active" } nowS

/-- `POST /candidates/.../reject`: `store.update(id, {"status": "deprecated"})`. -/
def reject_candidate (s : ExperienceStore) (rule_id : String) (nowS : String) :
    Option (ExperienceStore × ExperienceRule) :=
  ExperienceStore.update s rule_id { status := some "deprecated" } nowS

/-! ## Observability substrate (observability.py)

Timestamps are integers (seconds); `datetime.now(timezone.utc)` is an explicit
`now` parameter.  Stored `ts` values are always well-formed, so the
`fromisoformat` fallback and the `OverflowError` fallback (unreachable once
`since_seconds` is clamped) do not appear.  `Metrics.timings`/`labels` and the
log items' `extra` dict are not modelled: no verified operation reads them. -/

structure Metrics where
  counters : List (String × Int) := []
  gauges : List (String × ℚ) := []
  deriving DecidableEq, Repr

def Metrics.inc (m : Metrics) (name : String) (value : Int) : Metrics :=
  { m with counters := dictSet m.counters name ((dictGet m.counters name).getD 0 + value) }

def Metrics.set_gauge (m : Metrics) (name : String) (value : ℚ) : Metrics :=
  { m with gauges := dictSet m.gauges name value }

structure LogItem where
  ts : Int
  level : String
  message : String
  module : String
  tags : List String
  deriving DecidableEq, Repr

/-- `deque(maxlen=...)`: oldest first, eviction from the front. -/
structure LogBuffer where
  buf : List LogItem
  maxlen : Nat
  deriving DecidableEq, Repr

def LogBuffer.add (b : LogBuffer) (now : Int) (level message module : String)
    (tags : List String) : LogBuffer :=
  let appended := b.buf ++ [⟨now, pyUpper level, message, module, tags⟩]
  ⟨if b.maxlen < appended.length then appended.drop (appended.length - b.maxlen)
    else appended, b.maxlen⟩

/-- The per-item filter of `LogBuffer.search` (the three `continue` checks). -/
def logPred (level_u q : Option String) (since_dt : Option Int) (it : LogItem) : Bool :=
  (match level_u with | some lu => it.level = lu | none => true) &&
  (match q with
   | some qs =>
       if qs = "" then true
       else pyIn qs it.message || pyIn qs (joinComma it.tags)
   | none => true) &&
  (match since_dt with | some d => decide (d ≤ it.ts) | none => true)

/-- Collect matches until the clamped limit is reached (`break` on
`len(results) >= max(1, min(limit, 200))`). -/
def searchGo (pred : LogItem → Bool) (cap : Nat) : List LogItem → List LogItem
  | [] => []
  | it :: rest =>
      if pred it then
        if cap ≤ 1 then [it] else it :: searchGo pred (cap - 1) rest
      else searchGo pred cap rest

/-- `LogBuffer.search`: newest first; `since_seconds` is only applied when
truthy (nonzero), clamped into `[1, 365*24*3600]`. -/
def LogBuffer.search (b : LogBuffer) (now : Int)
    (q level : Option String) (since_seconds : Option Int) (limit : Int) :
    List LogItem :=
  let level_u : Option String := match level with
    | some l => if l = "" then none else some (pyUpper l)
    | none => none
  let safe_seconds : Option Int := match since_seconds with
    | some s => if s = 0 then none else some (max 1 (min s 31536000))
    | none => none
  let since_dt : Option Int := safe_seconds.map (fun s => now - s)
  searchGo (logPred level_u q since_dt) (max 1 (min limit 200)).toNat b.buf.reverse

/-- `LogSearchRequest`: the POST body model; `since_seconds` carries no
lower-bound constraint (unlike the GET route's `ge=1` query parameter). -/
structure LogSearchRequest where
  q : Option String := none
  query : Option String := none
  level : Option String := none
  limit : Int := 50
  since_seconds : Option Int := some 3600
  deriving DecidableEq, Repr

structure LogSearchResult where
  count : Nat
  returned : Nat
  items : List LogItem
  deriving DecidableEq, Repr

/-- `POST /logs/search`: normalizes `q` from `q`/`query`, clamps `limit`, and
forwards `since_seconds` unmodified to `LogBuffer.search`. -/
def search_logs_post (b : LogBuffer) (now : Int) (payload : LogSearchRequest) :
    LogSearchResult :=
  let q : Option String := match payload.q with
    | some s => if s = "" then payload.query else some s
    | none => payload.query
  let limit : Int := max 1 (min (if payload.limit = 0 then 50 else payload.limit) 200)
  let items := b.search now q payload.level payload.since_seconds limit
  ⟨items.length, items.length, items⟩

/-! ## Auto-candidate harvester (experience.py) -/

structure ExperienceAutoCandidateConfig where
  enabled : Bool := false
  min_count : Int := 3
  include_levels : List String := ["ERROR", "WARN"]
  since_seconds : Int := 900
  min_confidence : ℚ := 3/5
  max_candidates : Int := 10
  min_samples : Int := 20
  deriving DecidableEq, Repr

/-- Number of rules whose status lower-cases to `"draft"`. -/
def draftCount (s : ExperienceStore) : Nat :=
  (s.list_all.filter (fun r => pyLower r.status = "draft")).length

/-- One step of the `(module, level)` frequency aggregation over the recent
log items (the `examples` dict is collected but never used downstream). -/
def bumpFreq (allow : List String) (freq : List (String × Nat)) (it : LogItem) :
    List (String × Nat) :=
  let level := pyUpper it.level
  if allow.contains level then
    let module := if it.module = "" then "unknown" else it.module
    let key := module ++ ":" ++ level
    dictSet freq key ((dictGet freq key).getD 0 + 1)
  else freq

/-- The deterministic harvest fingerprint:
`sha256(f"{module}|{level}|{cnt}|{cfg.since_seconds}")[:16]` (braces are
Python f-string interpolation). -/
def harvestFp (module level : String) (cnt : Nat) (since_seconds : Int) : String :=
  String.mk ((sha256hex (utf8Bytes
    (module ++ "|" ++ level ++ "|" ++ toString cnt ++ "|" ++ toString since_seconds))).toList.take 16)

/-- The draft candidate synthesized for one `(module, level)` pattern. -/
def harvestCand (cfg : ExperienceAutoCandidateConfig) (key : String) (cnt : Nat)
    (uid : String) : ExperienceRule :=
  let ml := splitColon1 key
  { id := some uid,
    title := ml.1 ++ " high-" ++ pyLower ml.2 ++ " frequency reflection",
    content := "Observed " ++ toString cnt ++ " " ++ ml.2 ++ " logs in " ++ ml.1 ++
      " within last " ++ toString cfg.since_seconds ++ "s.",
    category := some "reflection",
    tags := [ml.1, ml.2, "auto"],
    status := "draft",
    fingerprint := some (harvestFp ml.1 ml.2 cnt cfg.since_seconds) }

/-- The candidate-creation loop over the frequency-ordered patterns.  Each
processed pattern consumes one uuid from `ids`; `store.add` is dedup-checked;
a `KeyError` from `add` propagates (`none`). -/
def harvestLoop (cfg : ExperienceAutoCandidateConfig) (nowS : String) :
    List (String × Nat) → List String → ExperienceStore → Nat → List ExperienceRule →
    Option (ExperienceStore × Nat × List ExperienceRule)
  | [], _, store, created, cands => some (store, created, cands)
  | (key, cnt) :: rest, ids, store, created, cands =>
      if (created : Int) ≥ (if cfg.max_candidates = 0 then 10 else cfg.max_candidates) then
        some (store, created, cands)
      else if (cnt : Int) < (if cfg.min_count = 0 then 1 else cfg.min_count) then
        harvestLoop cfg nowS rest ids store created cands
      else
        let cand := harvestCand cfg key cnt (ids.headD "")
        let before_cnt := draftCount store
        match store.add cand true false "" nowS with
        | none => none
        | some (store', added) =>
            let after_cnt := draftCount store'
            if after_cnt > before_cnt ∨ added.fingerprint = cand.fingerprint then
              harvestLoop cfg nowS rest ids.tail store'
                (created + (if after_cnt > before_cnt then 1 else 0)) (cands ++ [added])
            else harvestLoop cfg nowS rest ids.tail store' created cands

/-- The global singletons `store` / `logs` / `metrics` that the harvester
reads and writes. -/
structure HarvestEnv where
  store : ExperienceStore
  logs : LogBuffer
  metrics : Metrics
  deriving DecidableEq, Repr

/-- The log retrieval of the harvester:
`obs_logs.search(since_seconds=max(1, int(cfg.since_seconds or 900)), limit=1000)`. -/
def harvestRecent (cfg : ExperienceAutoCandidateConfig) (logs : LogBuffer) (now : Int) :
    List LogItem :=
  logs.search now none none
    (some (max 1 (if cfg.since_seconds = 0 then 900 else cfg.since_seconds))) 1000

/-- The `(module, level)` patterns ordered by descending frequency
(`sorted(freq.items(), key=..., reverse=True)`, a stable sort). -/
def harvestOrdered (cfg : ExperienceAutoCandidateConfig) (logs : LogBuffer) (now : Int) :
    List (String × Nat) :=
  stableSortDesc (fun p => p.2)
    ((harvestRecent cfg logs now).foldl (bumpFreq (cfg.include_levels.map pyUpper)) [])

/-- `POST /auto-candidate/harvest` (`harvest_auto_candidates`). -/
def harvest_auto_candidates (cfg : ExperienceAutoCandidateConfig)
    (env : HarvestEnv) (now : Int) (nowS : String) (ids : List String) :
    Option (HarvestEnv × Nat × List ExperienceRule) :=
  if ¬ cfg.enabled then
    let logs' := env.logs.add now "INFO" "auto_candidate_harvest_skipped" "experience"
      ["disabled"]
    some ({ env with logs := logs' }, 0, [])
  else
    let recent := harvestRecent cfg env.logs now
    if (recent.length : Int) < max 1 cfg.min_samples then
      let ms' := env.metrics.set_gauge "experience_auto_candidate_last_created" 0
      let logs' := env.logs.add now "INFO" "auto_candidate_harvest_skipped" "experience"
        ["insufficient_samples"]
      some ({ env with metrics := ms', logs := logs' }, 0, [])
    else
      match harvestLoop cfg nowS (harvestOrdered cfg env.logs now) ids env.store 0 [] with
      | none => none
      | some (store', created, cands) =>
          let ms' := ((env.metrics.inc "experience_auto_candidate_harvest_total" 1).set_gauge
              "experience_candidates_total" (draftCount store' : ℚ)).set_gauge
              "experience_auto_candidate_last_created" (created : ℚ)
          let logs' := env.logs.add now "INFO" "auto_candidate_harvest" "experience"
            ["enabled", toString created]
          some (⟨store', logs', ms'⟩, created, cands)

/-! ## Dictionary lemmas -/

theorem dictHas_eq_isSome {α : Type} (m : List (String × α)) (k : String) :
    dictHas m k = (dictGet m k).isSome := by
  induction m with
  | nil => rfl
  | cons p t ih =>
      by_cases h : p.1 = k
      · simp [dictHas, dictGet, List.find?_cons_of_pos, h]
      · simpa [dictHas, dictGet, List.find?_cons_of_neg, h, List.any_cons] using ih

theorem dictGet_cons {α : Type} (p : String × α) (t : List (String × α)) (k : String) :
    dictGet (p :: t) k = if p.1 = k then some p.2 else dictGet t k := by
  by_cases h : p.1 = k
  · simp [dictGet, List.find?_cons_of_pos, h]
  · simp [dictGet, List.find?_cons_of_neg, h]

theorem dictGet_none_of_not_has {α : Type} {m : List (String × α)} {k : String}
    (h : dictHas m k = false) : dictGet m k = none := by
  cases hg : dictGet m k with
  | none => rfl
  | some v => rw [dictHas_eq_isSome, hg] at h; simp at h

theorem dictGet_map_replace {α : Type} (m : List (String × α)) (k k' : String) (v : α) :
    dictGet (m.map (fun p => if p.1 = k then (k, v) else p)) k' =
      if k' = k then (if dictHas m k then some v else none) else dictGet m k' := by
  induction m with
  | nil => by_cases hk : k' = k <;> simp [dictGet, dictHas, hk]
  | cons p t ih =>
      by_cases hp : p.1 = k
      · by_cases hk : k' = k
        · simp [dictGet_cons, hp, hk, dictHas]
        · simp only [List.map_cons, if_pos hp, dictGet_cons]
          rw [if_neg (fun hh => hk hh.symm), if_neg hk, if_neg (hp ▸ fun hh => hk hh.symm), ih,
            if_neg hk]
      · by_cases hk' : p.1 = k'
        · have hkk : ¬ (k' = k) := fun hh => hp (hh ▸ hk')
          simp only [List.map_cons, if_neg hp, dictGet_cons, if_pos hk', if_neg hkk]
        · simp only [List.map_cons, if_neg hp, dictGet_cons, if_neg hk', ih]
          simp only [dictHas, List.any_cons, decide_eq_false hp, Bool.false_or]

theorem dictGet_dictSet {α : Type} (m : List (String × α)) (k k' : String) (v : α) :
    dictGet (dictSet m k v) k' = if k' = k then some v else dictGet m k' := by
  unfold dictSet
  cases hhas : dictHas m k with
  | true =>
      simp only [if_true]
      rw [dictGet_map_replace, hhas]
      simp
  | false =>
      simp only [Bool.false_eq_true, if_false]
      have hnone := dictGet_none_of_not_has hhas
      by_cases hk : k' = k
      · subst hk
        unfold dictGet at hnone ⊢
        cases hf : List.find? (fun p => decide (p.1 = k')) m with
        | none =>
            rw [List.find?_append, hf]
            simp [List.find?]
        | some q => rw [hf] at hnone; simp at hnone
      · rw [if_neg hk]
        unfold dictGet
        rw [List.find?_append]
        cases hf : List.find? (fun p => decide (p.1 = k')) m with
        | none =>
            have hkk : ¬ (k = k') := fun hh => hk hh.symm
            simp [List.find?, hkk]
        | some q => rfl

theorem dictGet_dictSet_self {α : Type} (m : List (String × α)) (k : String) (v : α) :
    dictGet (dictSet m k v) k = some v := by
  simp [dictGet_dictSet]

theorem dictGet_dictSet_ne {α : Type} (m : List (String × α)) (k k' : String) (v : α)
    (h : k' ≠ k) : dictGet (dictSet m k v) k' = dictGet m k' := by
  simp [dictGet_dictSet, h]

theorem mem_dictSet {α : Type} {m : List (String × α)} {k : String} {v : α}
    {p : String × α} (hp : p ∈ dictSet m k v) : p ∈ m ∨ p = (k, v) := by
  unfold dictSet at hp
  split at hp
  · rcases List.mem_map.mp hp with ⟨q, hq, hval⟩
    by_cases h : q.1 = k
    · right; simp [h] at hval; exact hval.symm
    · left; simp [h] at hval; exact hval ▸ hq
  · rcases List.mem_append.mp hp with h | h
    · exact Or.inl h
    · right; simpa using h

theorem dictSet_of_not_has {α : Type} {m : List (String × α)} {k : String} (v : α)
    (h : dictHas m k = false) : dictSet m k v = m ++ [(k, v)] := by
  unfold dictSet
  rw [h]
  rfl

theorem dictHas_append {α : Type} (m l : List (String × α)) (k : String) :
    dictHas (m ++ l) k = (dictHas m k || dictHas l k) := by
  simp [dictHas, List.any_append]

theorem dictGet_append_left {α : Type} {m : List (String × α)} {k : String}
    (l : List (String × α)) (h : (dictGet m k).isSome) :
    dictGet (m ++ l) k = dictGet m k := by
  cases hg : dictGet m k with
  | none => rw [hg] at h; simp at h
  | some v =>
      unfold dictGet at hg ⊢
      cases hf : List.find? (fun p => decide (p.1 = k)) m with
      | none => rw [hf] at hg; simp at hg
      | some q => rw [List.find?_append, hf]; simpa [hf] using hg

/-! ## `ensure_ids` field lemmas -/

@[simp] theorem ensure_ids_title (r : ExperienceRule) (g n : String) :
    (r.ensure_ids g n).title = r.title := by
  unfold ExperienceRule.ensure_ids; dsimp only; split <;> split <;> split <;> rfl

@[simp] theorem ensure_ids_content (r : ExperienceRule) (g n : String) :
    (r.ensure_ids g n).content = r.content := by
  unfold ExperienceRule.ensure_ids; dsimp only; split <;> split <;> split <;> rfl

@[simp] theorem ensure_ids_status (r : ExperienceRule) (g n : String) :
    (r.ensure_ids g n).status = r.status := by
  unfold ExperienceRule.ensure_ids; dsimp only; split <;> split <;> split <;> rfl

@[simp] theorem ensure_ids_tags (r : ExperienceRule) (g n : String) :
    (r.ensure_ids g n).tags = r.tags := by
  unfold ExperienceRule.ensure_ids; dsimp only; split <;> split <;> split <;> rfl

@[simp] theorem ensure_ids_confidence (r : ExperienceRule) (g n : String) :
    (r.ensure_ids g n).confidence = r.confidence := by
  unfold ExperienceRule.ensure_ids; dsimp only; split <;> split <;> split <;> rfl

@[simp] theorem ensure_ids_weight (r : ExperienceRule) (g n : String) :
    (r.ensure_ids g n).weight = r.weight := by
  unfold ExperienceRule.ensure_ids; dsimp only; split <;> split <;> split <;> rfl

@[simp] theorem ensure_ids_category (r : ExperienceRule) (g n : String) :
    (r.ensure_ids g n).category = r.category := by
  unfold ExperienceRule.ensure_ids; dsimp only; split <;> split <;> split <;> rfl

/-- The id the rule carries after `ensure_ids` (a kept truthy id, else `genId`). -/
def ruleIdAfter (r : ExperienceRule) (g : String) : String :=
  match r.id with
  | some s => if s = "" then g else s
  | none => g

/-! ## Digest shape lemmas -/

theorem sha256hex_toList_length (msg : List Nat) :
    (sha256hex msg).toList.length = 64 := by
  simp [sha256hex, sha256Words, wordHex8, String.toList]

theorem make_fingerprint_ne_empty (t c : String) :
    ExperienceStore.make_fingerprint t c ≠ "" := by
  intro h
  have h2 := congrArg (fun s => s.toList.length) h
  simp only [ExperienceStore.make_fingerprint] at h2
  rw [sha256hex_toList_length] at h2
  simp at h2

theorem sha256hex_data_length (msg : List Nat) :
    (sha256hex msg).data.length = 64 := by
  have h := sha256hex_toList_length msg
  simpa [String.toList] using h

theorem harvestFp_ne_empty (m l : String) (c : Nat) (s : Int) :
    harvestFp m l c s ≠ "" := by
  intro h
  have h2 := congrArg (fun s => s.data.length) h
  simp only [harvestFp, String.toList] at h2
  rw [List.length_take, sha256hex_data_length] at h2
  simp at h2

/-! ## The fingerprint `add` computes and indexes -/

/-- `fp = rule.fingerprint or self.make_fingerprint(rule.title, rule.content)`
after `ensure_ids`. -/
def computedFp (r : ExperienceRule) (g n : String) : String :=
  pyOrStr (r.ensure_ids g n).fingerprint
    (ExperienceStore.make_fingerprint (r.ensure_ids g n).title (r.ensure_ids g n).content)

theorem ensure_ids_fingerprint_shape (r : ExperienceRule) (g n : String) :
    ∃ y, (r.ensure_ids g n).fingerprint = some y ∧ y ≠ "" := by
  unfold ExperienceRule.ensure_ids
  dsimp only
  repeat' split
  all_goals
    first
    | (rename_i h
       cases hf : r.fingerprint with
       | none => simp [optTruthy, hf] at h
       | some x =>
           refine ⟨x, by simp [hf], ?_⟩
           rw [hf] at h
           simpa [optTruthy] using h)
    | exact ⟨_, rfl, make_fingerprint_ne_empty _ _⟩

theorem ensure_ids_fingerprint_eq (r : ExperienceRule) (g n : String) :
    (r.ensure_ids g n).fingerprint = some (computedFp r g n) := by
  obtain ⟨y, hy, hne⟩ := ensure_ids_fingerprint_shape r g n
  rw [computedFp, hy]
  simp [pyOrStr, hne]

theorem computedFp_ne_empty (r : ExperienceRule) (g n : String) :
    computedFp r g n ≠ "" := by
  obtain ⟨y, hy, hne⟩ := ensure_ids_fingerprint_shape r g n
  unfold computedFp
  rw [hy]
  simp [pyOrStr, hne]

theorem computedFp_of_unset (r : ExperienceRule) (g n : String)
    (h : optTruthy r.fingerprint = false) :
    computedFp r g n = ExperienceStore.make_fingerprint r.title r.content := by
  have hfp : (r.ensure_ids g n).fingerprint =
      some (ExperienceStore.make_fingerprint r.title r.content) := by
    unfold ExperienceRule.ensure_ids
    dsimp only
    repeat' split
    all_goals
      first
      | (rename_i hcond; rw [h] at hcond; simp at hcond)
      | rfl
  unfold computedFp
  rw [hfp]
  simp [pyOrStr, make_fingerprint_ne_empty]

theorem ensure_ids_id (r : ExperienceRule) (g n : String) :
    (r.ensure_ids g n).id = some (ruleIdAfter r g) := by
  unfold ExperienceRule.ensure_ids ruleIdAfter
  dsimp only
  cases hid : r.id with
  | none =>
      simp only [optTruthy, Bool.false_eq_true, if_false]
      split <;> split <;> rfl
  | some s =>
      by_cases hs : s = ""
      · simp only [optTruthy, hs, decide_eq_true_eq, if_neg, ne_eq, not_true_eq_false,
          Bool.false_eq_true, if_false]
        split <;> split <;> rfl
      · have ht : optTruthy (some s) = true := by simp [optTruthy, hs]
        simp only [ht, if_true, if_neg hs]
        split <;> split <;> simp [hid]

/-! ## Characterizations of `add` and `update` -/

/-- With dedup on and the computed fingerprint indexed to a live id, `add`
returns that stored entry and leaves the store untouched. -/
theorem add_dedup_hit (s : ExperienceStore) (r : ExperienceRule) (u : Bool) (g n : String)
    (exId : String) (ex : ExperienceRule)
    (hidx : dictGet s.id_by_fp (computedFp r g n) = some exId)
    (hlive : dictGet s.by_id exId = some ex) :
    ExperienceStore.add s r true u g n = some (s, ex) := by
  unfold ExperienceStore.add
  dsimp only
  have hfp : pyOrStr (r.ensure_ids g n).fingerprint
      (ExperienceStore.make_fingerprint (r.ensure_ids g n).title (r.ensure_ids g n).content) =
      computedFp r g n := rfl
  rw [hfp]
  have hhas : dictHas s.id_by_fp (computedFp r g n) = true := by
    rw [dictHas_eq_isSome, hidx]; rfl
  rw [if_pos ⟨rfl, hhas⟩, hidx]
  dsimp only
  rw [hlive]

/-- With dedup on and the computed fingerprint indexed to an id that is no
longer stored, `add` raises `KeyError` (returns `none`). -/
theorem add_dedup_stale (s : ExperienceStore) (r : ExperienceRule) (u : Bool) (g n : String)
    (exId : String)
    (hidx : dictGet s.id_by_fp (computedFp r g n) = some exId)
    (hdead : dictGet s.by_id exId = none) :
    ExperienceStore.add s r true u g n = none := by
  unfold ExperienceStore.add
  dsimp only
  have hfp : pyOrStr (r.ensure_ids g n).fingerprint
      (ExperienceStore.make_fingerprint (r.ensure_ids g n).title (r.ensure_ids g n).content) =
      computedFp r g n := rfl
  rw [hfp]
  have hhas : dictHas s.id_by_fp (computedFp r g n) = true := by
    rw [dictHas_eq_isSome, hidx]; rfl
  rw [if_pos ⟨rfl, hhas⟩, hidx]
  dsimp only
  rw [hdead]

/-- When the dedup branch is not taken, `add` stores the ensured rule (with a
possibly upsert-preserved creation timestamp) and indexes its fingerprint. -/
theorem add_not_hit (s : ExperienceStore) (r : ExperienceRule) (d u : Bool) (g n : String)
    (hno : ¬ (d = true ∧ dictHas s.id_by_fp (computedFp r g n) = true)) :
    ∃ ca, ExperienceStore.add s r d u g n =
      some (⟨dictSet s.by_id (ruleIdAfter r g) { r.ensure_ids g n with created_at := ca },
             dictSet s.id_by_fp (computedFp r g n) (ruleIdAfter r g)⟩,
            { r.ensure_ids g n with created_at := ca }) := by
  unfold ExperienceStore.add
  dsimp only
  have hfp : pyOrStr (r.ensure_ids g n).fingerprint
      (ExperienceStore.make_fingerprint (r.ensure_ids g n).title (r.ensure_ids g n).content) =
      computedFp r g n := rfl
  rw [hfp]
  have hrid : ((r.ensure_ids g n).id).getD "" = ruleIdAfter r g := by
    rw [ensure_ids_id]; rfl
  rw [if_neg hno, hrid]
  split
  · cases hold : dictGet s.by_id (ruleIdAfter r g) with
    | some old => exact ⟨_, rfl⟩
    | none => exact ⟨(r.ensure_ids g n).created_at, rfl⟩
  · exact ⟨(r.ensure_ids g n).created_at, rfl⟩

/-- `add` with dedup off, upsert off and a fresh id appends the ensured rule. -/
theorem add_insert_plain (s : ExperienceStore) (r : ExperienceRule) (d : Bool) (g n : String)
    (hno : ¬ (d = true ∧ dictHas s.id_by_fp (computedFp r g n) = true)) :
    ExperienceStore.add s r d false g n =
      some (⟨dictSet s.by_id (ruleIdAfter r g) (r.ensure_ids g n),
             dictSet s.id_by_fp (computedFp r g n) (ruleIdAfter r g)⟩,
            r.ensure_ids g n) := by
  unfold ExperienceStore.add
  dsimp only
  have hfp : pyOrStr (r.ensure_ids g n).fingerprint
      (ExperienceStore.make_fingerprint (r.ensure_ids g n).title (r.ensure_ids g n).content) =
      computedFp r g n := rfl
  rw [hfp]
  have hrid : ((r.ensure_ids g n).id).getD "" = ruleIdAfter r g := by
    rw [ensure_ids_id]; rfl
  rw [if_neg hno, hrid, if_neg (by simp)]

/-- The updated rule `update` builds and stores. -/
def updRule (cur : ExperienceRule) (p : RulePatch) (nowS : String) : ExperienceRule :=
  { applyPatch cur p with
    updated_at := some nowS
    fingerprint := some (ExperienceStore.make_fingerprint
      (applyPatch cur p).title (applyPatch cur p).content) }

theorem update_found (s : ExperienceStore) (id : String) (p : RulePatch) (nowS : String)
    {cur : ExperienceRule} (h : dictGet s.by_id id = some cur) :
    ExperienceStore.update s id p nowS =
      some (⟨dictSet s.by_id id (updRule cur p nowS),
             dictSet s.id_by_fp (ExperienceStore.make_fingerprint
               (applyPatch cur p).title (applyPatch cur p).content) id⟩,
            updRule cur p nowS) := by
  unfold ExperienceStore.update
  rw [h]
  rfl

theorem update_not_found (s : ExperienceStore) (id : String) (p : RulePatch) (nowS : String)
    (h : dictGet s.by_id id = none) :
    ExperienceStore.update s id p nowS = none := by
  unfold ExperienceStore.update
  rw [h]

/-! ## C1: the stored-fingerprint invariant -/

/-- For every rule in the store, the stored fingerprint is the sha256 hex
digest of the trimmed lower-cased title, a newline, and the trimmed
lower-cased content. -/
def FpInv (s : ExperienceStore) : Prop :=
  ∀ p ∈ s.by_id,
    p.2.fingerprint = some (ExperienceStore.make_fingerprint p.2.title p.2.content)

/-- C1 (amended): `update` always restores the fingerprint invariant for the
updated rule and touches no other rule; `add` preserves the invariant
provided the supplied rule carries no pre-set (truthy) fingerprint — a
caller-supplied fingerprint is stored verbatim, so the unrestricted claim
fails (see the counterexample). -/
theorem C1_fingerprint_invariant_preserved (s : ExperienceStore) (hs : FpInv s) :
    (∀ r d u g n out, optTruthy r.fingerprint = false →
      ExperienceStore.add s r d u g n = some out → FpInv out.1) ∧
    (∀ id p n out, ExperienceStore.update s id p n = some out → FpInv out.1) := by
  constructor
  · intro r d u g n out hunset hadd
    by_cases hhit : d = true ∧ dictHas s.id_by_fp (computedFp r g n) = true
    · rcases hhit with ⟨hd, hhas⟩
      subst hd
      rw [dictHas_eq_isSome] at hhas
      cases hidx : dictGet s.id_by_fp (computedFp r g n) with
      | none => rw [hidx] at hhas; simp at hhas
      | some exId =>
          cases hlive : dictGet s.by_id exId with
          | none =>
              rw [add_dedup_stale s r u g n exId hidx hlive] at hadd
              exact absurd hadd (by simp)
          | some ex =>
              rw [add_dedup_hit s r u g n exId ex hidx hlive] at hadd
              cases hadd
              exact hs
    · obtain ⟨ca, heq⟩ := add_not_hit s r d u g n hhit
      rw [heq] at hadd
      cases hadd
      intro q hq
      rcases mem_dictSet hq with hmem | hq2
      · exact hs q hmem
      · subst hq2
        show ({ r.ensure_ids g n with created_at := ca } : ExperienceRule).fingerprint = _
        have h1 : ({ r.ensure_ids g n with created_at := ca } : ExperienceRule).fingerprint =
            (r.ensure_ids g n).fingerprint := rfl
        have h2 : ({ r.ensure_ids g n with created_at := ca } : ExperienceRule).title =
            r.title := ensure_ids_title r g n
        have h3 : ({ r.ensure_ids g n with created_at := ca } : ExperienceRule).content =
            r.content := ensure_ids_content r g n
        rw [h1, ensure_ids_fingerprint_eq, computedFp_of_unset r g n hunset, h2, h3]
  · intro id p n out hupd
    cases hcur : dictGet s.by_id id with
    | none => rw [update_not_found s id p n hcur] at hupd; exact absurd hupd (by simp)
    | some cur =>
        rw [update_found s id p n hcur] at hupd
        cases hupd
        intro q hq
        rcases mem_dictSet hq with hmem | hq2
        · exact hs q hmem
        · subst hq2
          rfl

def c1wRule : ExperienceRule := { title := "t", content := "c" }

/-- C1 witness: a concrete successful `add` (no pre-set fingerprint) whose
resulting store satisfies the invariant. -/
theorem C1_witness :
    ∃ out, ExperienceStore.add emptyStore c1wRule true false "i" "t0" = some out ∧
      FpInv out.1 := by
  have happ := (C1_fingerprint_invariant_preserved emptyStore
    (fun p hp => absurd hp (List.not_mem_nil p))).1
  cases hadd : ExperienceStore.add emptyStore c1wRule true false "i" "t0" with
  | none => exact absurd hadd (by decide)
  | some out => exact ⟨out, rfl, happ c1wRule true false "i" "t0" out rfl hadd⟩

def c1cexRule : ExperienceRule := { title := "t", content := "c", fingerprint := some "x" }

def c1cexStored : ExperienceRule :=
  { c1cexRule with
    id := some "i"
    created_at := some "t0"
    updated_at := some "t0" }

/-- C1 counterexample: a successful `add` of a rule with a caller-supplied
fingerprint `"x"` stores `"x"` verbatim, so immediately after the add the
store violates `fingerprint == hash(normalize(title) + newline +
normalize(content))` — the claim as stated is false.  (This is exactly the
path the auto-harvester uses, which pre-sets a 16-character truncated
pattern digest.) -/
theorem C1_counterexample :
    ExperienceStore.add emptyStore c1cexRule true false "i" "t0" =
      some (⟨[("i", c1cexStored)], [("x", "i")]⟩, c1cexStored) ∧
    ¬ FpInv ⟨[("i", c1cexStored)], [("x", "i")]⟩ := by
  constructor
  · rfl
  · intro h
    have h2 := h ("i", c1cexStored) (by simp)
    have h3 : ("x" : String) = ExperienceStore.make_fingerprint "t" "c" := by
      simpa [c1cexStored, c1cexRule] using h2
    have h4 := congrArg (fun s => s.data.length) h3
    simp only [ExperienceStore.make_fingerprint] at h4
    rw [sha256hex_data_length] at h4
    simp at h4

/-! ## C2: dedup-hit behaviour of `add` -/

/-- C2 (amended): with dedup enabled and the computed fingerprint present in
the fingerprint index, `add` returns the entry stored under the indexed id
unchanged and creates no new row — provided that id is still present in the
store.  If the index entry is stale (its id was deleted), `add` raises
`KeyError` instead of succeeding, so the claim's "never fails" part is false
as stated (see the counterexample). -/
theorem C2_dedup_index_behaviour (s : ExperienceStore) (r : ExperienceRule) (u : Bool)
    (g n : String) (exId : String)
    (hidx : dictGet s.id_by_fp (computedFp r g n) = some exId) :
    (∀ ex, dictGet s.by_id exId = some ex →
        ExperienceStore.add s r true u g n = some (s, ex)) ∧
    (dictGet s.by_id exId = none → ExperienceStore.add s r true u g n = none) :=
  ⟨fun ex hlive => add_dedup_hit s r u g n exId ex hidx hlive,
   fun hdead => add_dedup_stale s r u g n exId hidx hdead⟩

def c2wEx : ExperienceRule := { title := "w", content := "v", fingerprint := some "f" }

def c2wStore : ExperienceStore := ⟨[("i1", c2wEx)], [("f", "i1")]⟩

def c2wReq : ExperienceRule := { title := "t", content := "c", fingerprint := some "f" }

/-- C2 witness: a concrete dedup hit on a live index entry returns the stored
entry and leaves the store unchanged. -/
theorem C2_witness :
    ExperienceStore.add c2wStore c2wReq true false "i2" "t1" = some (c2wStore, c2wEx) :=
  (C2_dedup_index_behaviour c2wStore c2wReq false "i2" "t1" "i1" (by decide)).1
    c2wEx (by decide)

def c2fpAB : String := ExperienceStore.make_fingerprint "a" "b"

def c2fpCB : String := ExperienceStore.make_fingerprint "c" "b"

def c2r1 : ExperienceRule := { title := "a", content := "b" }

def c2r1s : ExperienceRule :=
  { c2r1 with
    id := some "i1"
    created_at := some "t1"
    updated_at := some "t1"
    fingerprint := some c2fpAB }

def c2s1 : ExperienceStore := ⟨[("i1", c2r1s)], [(c2fpAB, "i1")]⟩

def c2r1u : ExperienceRule :=
  { c2r1s with
    title := "c"
    updated_at := some "t2"
    fingerprint := some c2fpCB }

def c2s2 : ExperienceStore := ⟨[("i1", c2r1u)], [(c2fpAB, "i1"), (c2fpCB, "i1")]⟩

def c2s3 : ExperienceStore := ⟨[], [(c2fpAB, "i1")]⟩

/-- C2 counterexample: add ("a","b"), update its title (the old fingerprint
stays indexed), delete the rule (only the current fingerprint entry is
removed), then add ("a","b") again with dedup on.  The store holds the
computed fingerprint in its index, yet `add` fails (`KeyError`) instead of
returning an existing live entry — falsifying the claim as stated. -/
theorem C2_counterexample :
    ExperienceStore.add emptyStore c2r1 true false "i1" "t1" = some (c2s1, c2r1s) ∧
    ExperienceStore.update c2s1 "i1" { title := some "c" } "t2" = some (c2s2, c2r1u) ∧
    ExperienceStore.delete c2s2 "i1" = (c2s3, true) ∧
    dictHas c2s3.id_by_fp (computedFp c2r1 "i2" "t3") = true ∧
    ExperienceStore.add c2s3 c2r1 true false "i2" "t3" = none :=
  ⟨by decide, by decide, by decide, by decide, by decide⟩

/-- `add` with dedup disabled always succeeds. -/
theorem add_no_dedup_isSome (s : ExperienceStore) (r : ExperienceRule) (u : Bool)
    (g n : String) : (ExperienceStore.add s r false u g n).isSome := by
  obtain ⟨ca, heq⟩ := add_not_hit s r false u g n (by simp)
  rw [heq]
  rfl

/-! ## C7: candidate workflow -/

/-- C7: a rule created (inserted) via the candidate path is stored with
status "draft" regardless of the caller-supplied status (every row of the
post-add store is either a pre-existing row or a draft); after approve the
rule's status is exactly "active" and after reject exactly "deprecated";
approve or reject on an identifier absent from the store yields NotFound
(`none`) and, the model being pure, changes no rule. -/
theorem C7_candidate_workflow (s : ExperienceStore) :
    (∀ req d u g n out, add_candidate s req d u g n = some out →
        ∀ p ∈ out.1.by_id, p ∈ s.by_id ∨ p.2.status = "draft") ∧
    (∀ id n out, approve_candidate s id n = some out →
        out.2.status = "active" ∧ dictGet out.1.by_id id = some out.2) ∧
    (∀ id n out, reject_candidate s id n = some out →
        out.2.status = "deprecated" ∧ dictGet out.1.by_id id = some out.2) ∧
    (∀ id n, dictGet s.by_id id = none →
        approve_candidate s id n = none ∧ reject_candidate s id n = none) := by
  refine ⟨?_, ?_, ?_, ?_⟩
  · intro req d u g n out hadd p hp
    unfold add_candidate at hadd
    set req' : ExperienceRule := { req with status := "draft" } with hreq'
    by_cases hhit : d = true ∧ dictHas s.id_by_fp (computedFp req' g n) = true
    · rcases hhit with ⟨hd, hhas⟩
      subst hd
      rw [dictHas_eq_isSome] at hhas
      cases hidx : dictGet s.id_by_fp (computedFp req' g n) with
      | none => rw [hidx] at hhas; simp at hhas
      | some exId =>
          cases hlive : dictGet s.by_id exId with
          | none =>
              rw [add_dedup_stale s req' u g n exId hidx hlive] at hadd
              exact absurd hadd (by simp)
          | some ex =>
              rw [add_dedup_hit s req' u g n exId ex hidx hlive] at hadd
              cases hadd
              exact Or.inl hp
    · obtain ⟨ca, heq⟩ := add_not_hit s req' d u g n hhit
      rw [heq] at hadd
      cases hadd
      rcases mem_dictSet hp with hmem | hp2
      · exact Or.inl hmem
      · right
        subst hp2
        show ({ req'.ensure_ids g n with created_at := ca } : ExperienceRule).status = "draft"
        have h1 : ({ req'.ensure_ids g n with created_at := ca } : ExperienceRule).status =
            req'.status := ensure_ids_status req' g n
        rw [h1]
  · intro id n out happ
    unfold approve_candidate at happ
    cases hcur : dictGet s.by_id id with
    | none => rw [update_not_found s id _ n hcur] at happ; exact absurd happ (by simp)
    | some cur =>
        rw [update_found s id _ n hcur] at happ
        cases happ
        exact ⟨rfl, dictGet_dictSet_self _ _ _⟩
  · intro id n out hrej
    unfold reject_candidate at hrej
    cases hcur : dictGet s.by_id id with
    | none => rw [update_not_found s id _ n hcur] at hrej; exact absurd hrej (by simp)
    | some cur =>
        rw [update_found s id _ n hcur] at hrej
        cases hrej
        exact ⟨rfl, dictGet_dictSet_self _ _ _⟩
  · intro id n habs
    exact ⟨update_not_found s id _ n habs, update_not_found s id _ n habs⟩

def c7req : ExperienceRule := { title := "a", content := "b", status := "active" }

def c7draft : ExperienceRule :=
  { title := "d", content := "e", status := "draft", fingerprint := some "f7" }

def c7store : ExperienceStore := ⟨[("i1", c7draft)], [("f7", "i1")]⟩

/-- C7 witness: concrete candidate insert, approve, reject and NotFound. -/
theorem C7_witness :
    (∃ out, add_candidate emptyStore c7req false false "g1" "t1" = some out ∧
        ∀ p ∈ out.1.by_id, p ∈ emptyStore.by_id ∨ p.2.status = "draft") ∧
    (∃ out, approve_candidate c7store "i1" "t2" = some out ∧ out.2.status = "active") ∧
    (∃ out, reject_candidate c7store "i1" "t2" = some out ∧ out.2.status = "deprecated") ∧
    (approve_candidate c7store "zz" "t2" = none ∧ reject_candidate c7store "zz" "t2" = none) := by
  have hthm0 := C7_candidate_workflow emptyStore
  have hthm := C7_candidate_workflow c7store
  refine ⟨?_, ?_, ?_, hthm.2.2.2 "zz" "t2" (by decide)⟩
  · cases hadd : add_candidate emptyStore c7req false false "g1" "t1" with
    | none => exact absurd hadd (by decide)
    | some out => exact ⟨out, rfl, hthm0.1 c7req false false "g1" "t1" out hadd⟩
  · cases happ : approve_candidate c7store "i1" "t2" with
    | none => exact absurd happ (by decide)
    | some out => exact ⟨out, rfl, (hthm.2.1 "i1" "t2" out happ).1⟩
  · cases hrej : reject_candidate c7store "i1" "t2" with
    | none => exact absurd hrej (by decide)
    | some out => exact ⟨out, rfl, (hthm.2.2.1 "i1" "t2" out hrej).1⟩

/-! ## C6: insert idempotence under dedup -/

/-- C6: from any store, inserting a rule with the same (title, content) pair
twice (no caller-supplied fingerprint) with dedup enabled returns the same
stored entry both times and the second call leaves the store unchanged;
with dedup disabled and fresh distinct generated ids, two rows are stored
under distinct identifiers carrying the same (non-null) fingerprint. -/
theorem C6_insert_idempotence :
    (∀ (s : ExperienceStore) (r r' : ExperienceRule) (u u' : Bool) (g1 n1 g2 n2 : String)
        (s1 : ExperienceStore) (a1 : ExperienceRule),
        r'.title = r.title → r'.content = r.content →
        r.fingerprint = none → r'.fingerprint = none →
        ExperienceStore.add s r true u g1 n1 = some (s1, a1) →
        ExperienceStore.add s1 r' true u' g2 n2 = some (s1, a1)) ∧
    (∀ (s : ExperienceStore) (r r' : ExperienceRule) (g1 n1 g2 n2 : String)
        (s1 s2 : ExperienceStore) (a1 a2 : ExperienceRule),
        r'.title = r.title → r'.content = r.content →
        r.fingerprint = none → r'.fingerprint = none →
        r.id = none → r'.id = none → g1 ≠ g2 →
        ExperienceStore.add s r false false g1 n1 = some (s1, a1) →
        ExperienceStore.add s1 r' false false g2 n2 = some (s2, a2) →
        a1.id = some g1 ∧ a2.id = some g2 ∧
        dictGet s2.by_id g1 = some a1 ∧ dictGet s2.by_id g2 = some a2 ∧
        a1.fingerprint = a2.fingerprint ∧ a1.fingerprint ≠ none) := by
  have hfpEq : ∀ (r r' : ExperienceRule) (g1 n1 g2 n2 : String),
      r'.title = r.title → r'.content = r.content →
      r.fingerprint = none → r'.fingerprint = none →
      computedFp r' g2 n2 = computedFp r g1 n1 := by
    intro r r' g1 n1 g2 n2 ht hc hf hf'
    rw [computedFp_of_unset r g1 n1 (by rw [hf]; rfl),
      computedFp_of_unset r' g2 n2 (by rw [hf']; rfl), ht, hc]
  constructor
  · intro s r r' u u' g1 n1 g2 n2 s1 a1 ht hc hf hf' hadd1
    have hFp := hfpEq r r' g1 n1 g2 n2 ht hc hf hf'
    by_cases hhit : True ∧ dictHas s.id_by_fp (computedFp r g1 n1) = true
    · rcases hhit with ⟨-, hhas⟩
      rw [dictHas_eq_isSome] at hhas
      cases hidx : dictGet s.id_by_fp (computedFp r g1 n1) with
      | none => rw [hidx] at hhas; simp at hhas
      | some exId =>
          cases hlive : dictGet s.by_id exId with
          | none =>
              rw [add_dedup_stale s r u g1 n1 exId hidx hlive] at hadd1
              exact absurd hadd1 (by simp)
          | some ex =>
              rw [add_dedup_hit s r u g1 n1 exId ex hidx hlive] at hadd1
              cases hadd1
              exact add_dedup_hit _ r' u' g2 n2 _ _ (by rw [hFp]; exact hidx) hlive
    · have hno : ¬ (true = true ∧ dictHas s.id_by_fp (computedFp r g1 n1) = true) := by
        intro hcon
        exact hhit ⟨trivial, hcon.2⟩
      obtain ⟨ca, heq⟩ := add_not_hit s r true u g1 n1 hno
      rw [heq] at hadd1
      cases hadd1
      refine add_dedup_hit _ r' u' g2 n2 (ruleIdAfter r g1)
        { r.ensure_ids g1 n1 with created_at := ca } ?_ ?_
      · rw [hFp]
        exact dictGet_dictSet_self _ _ _
      · exact dictGet_dictSet_self _ _ _
  · intro s r r' g1 n1 g2 n2 s1 s2 a1 a2 ht hc hf hf' hid hid' hg hadd1 hadd2
    have hFp := hfpEq r r' g1 n1 g2 n2 ht hc hf hf'
    have hrid1 : ruleIdAfter r g1 = g1 := by unfold ruleIdAfter; rw [hid]
    have hrid2 : ruleIdAfter r' g2 = g2 := by unfold ruleIdAfter; rw [hid']
    rw [add_insert_plain s r false g1 n1 (by simp)] at hadd1
    rw [add_insert_plain s1 r' false g2 n2 (by simp)] at hadd2
    cases hadd1
    cases hadd2
    refine ⟨by rw [ensure_ids_id, hrid1], by rw [ensure_ids_id, hrid2], ?_, ?_, ?_, ?_⟩
    · rw [hrid1, hrid2, dictGet_dictSet_ne _ _ _ _ hg, dictGet_dictSet_self]
    · rw [hrid2, dictGet_dictSet_self]
    · rw [ensure_ids_fingerprint_eq, ensure_ids_fingerprint_eq, hFp]
    · rw [ensure_ids_fingerprint_eq]
      simp

def c6rule : ExperienceRule := { title := "a", content := "b" }

/-- C6 witness: two concrete dedup-on inserts of ("a","b") return the same
entry, and two dedup-off inserts create two rows with equal fingerprints. -/
theorem C6_witness :
    (∃ s1 a1, ExperienceStore.add emptyStore c6rule true false "g1" "t1" = some (s1, a1) ∧
        ExperienceStore.add s1 c6rule true false "g2" "t2" = some (s1, a1)) ∧
    (∃ s1 a1 s2 a2, ExperienceStore.add emptyStore c6rule false false "g1" "t1" = some (s1, a1) ∧
        ExperienceStore.add s1 c6rule false false "g2" "t2" = some (s2, a2) ∧
        a1.id = some "g1" ∧ a2.id = some "g2" ∧
        dictGet s2.by_id "g1" = some a1 ∧ dictGet s2.by_id "g2" = some a2 ∧
        a1.fingerprint = a2.fingerprint ∧ a1.fingerprint ≠ none) := by
  constructor
  · cases hadd : ExperienceStore.add emptyStore c6rule true false "g1" "t1" with
    | none => exact absurd hadd (by decide)
    | some out =>
        obtain ⟨T, B⟩ := out
        refine ⟨T, B, rfl, ?_⟩
        exact C6_insert_idempotence.1 emptyStore c6rule c6rule false false "g1" "t1" "g2" "t2"
          T B rfl rfl rfl rfl hadd
  · cases hadd1 : ExperienceStore.add emptyStore c6rule false false "g1" "t1" with
    | none => exact absurd hadd1 (by decide)
    | some out1 =>
        obtain ⟨T1, B1⟩ := out1
        cases hadd2 : ExperienceStore.add T1 c6rule false false "g2" "t2" with
        | none =>
            have := add_no_dedup_isSome T1 c6rule false "g2" "t2"
            rw [hadd2] at this
            simp at this
        | some out2 =>
            obtain ⟨T2, B2⟩ := out2
            have hres := C6_insert_idempotence.2 emptyStore c6rule c6rule "g1" "t1" "g2" "t2"
              T1 T2 B1 B2 rfl rfl rfl rfl rfl rfl
              (by intro h; simp at h) hadd1 hadd2
            refine ⟨T1, B1, T2, B2, rfl, hadd2, ?_⟩
            exact hres

/-! ## C4: harvester gating -/

/-- C4: with `enabled=false`, harvest returns created=0 and inserts no rule,
regardless of log content; with `enabled=true` but fewer retrieved recent
log events than `max(1, min_samples)`, harvest returns created=0, inserts
no rule, and resets the "experience_auto_candidate_last_created" gauge
to 0. -/
theorem C4_harvest_gating (cfg : ExperienceAutoCandidateConfig) (env : HarvestEnv)
    (now : Int) (nowS : String) (ids : List String) :
    (cfg.enabled = false →
      ∃ out, harvest_auto_candidates cfg env now nowS ids = some out ∧
        out.2.1 = 0 ∧ out.1.store = env.store) ∧
    (cfg.enabled = true →
      ((harvestRecent cfg env.logs now).length : Int) < max 1 cfg.min_samples →
      ∃ out, harvest_auto_candidates cfg env now nowS ids = some out ∧
        out.2.1 = 0 ∧ out.1.store = env.store ∧
        dictGet out.1.metrics.gauges "experience_auto_candidate_last_created" = some 0) := by
  constructor
  · intro hoff
    unfold harvest_auto_candidates
    rw [if_pos (by rw [hoff]; simp)]
    exact ⟨_, rfl, rfl, rfl⟩
  · intro hon hlow
    unfold harvest_auto_candidates
    rw [if_neg (by rw [hon]; simp)]
    dsimp only
    rw [if_pos hlow]
    exact ⟨_, rfl, rfl, rfl, dictGet_dictSet_self _ _ _⟩

def c4offCfg : ExperienceAutoCandidateConfig := {}

def c4onCfg : ExperienceAutoCandidateConfig := { enabled := true }

def c4env : HarvestEnv := ⟨emptyStore, ⟨[], 2000⟩, {}⟩

/-- C4 witness: the disabled case and the insufficient-samples case on a
concrete empty telemetry environment. -/
theorem C4_witness :
    (∃ out, harvest_auto_candidates c4offCfg c4env 0 "t" [] = some out ∧
        out.2.1 = 0 ∧ out.1.store = c4env.store) ∧
    (∃ out, harvest_auto_candidates c4onCfg c4env 0 "t" [] = some out ∧
        out.2.1 = 0 ∧ out.1.store = c4env.store ∧
        dictGet out.1.metrics.gauges "experience_auto_candidate_last_created" = some 0) :=
  ⟨(C4_harvest_gating c4offCfg c4env 0 "t" []).1 rfl,
   (C4_harvest_gating c4onCfg c4env 0 "t" []).2 rfl (by decide)⟩

/-! ## C10: zero and negative since_seconds in log search -/

/-- Shared: a supplied `since_seconds = 0` is falsy in Python, so no time
filter is applied at all. -/
theorem log_search_zero_since (b : LogBuffer) (now : Int) (q level : Option String)
    (limit : Int) :
    LogBuffer.search b now q level (some 0) limit =
      LogBuffer.search b now q level none limit := by
  unfold LogBuffer.search
  simp

/-- C10: `since_seconds = 0` applies no time filter (events of any age are
eligible); any negative `since_seconds` is clamped up to a one-second
window; and the zero case is reachable from the POST log-search endpoint,
whose request model does not constrain `since_seconds` (it is forwarded
unmodified). -/
theorem C10_zero_since_no_time_filter :
    (∀ (b : LogBuffer) (now : Int) (q level : Option String) (limit : Int),
        LogBuffer.search b now q level (some 0) limit =
          LogBuffer.search b now q level none limit) ∧
    (∀ (b : LogBuffer) (now : Int) (q level : Option String) (limit : Int) (s : Int),
        s < 0 →
        LogBuffer.search b now q level (some s) limit =
          LogBuffer.search b now q level (some 1) limit) ∧
    (∀ (b : LogBuffer) (now : Int) (payload : LogSearchRequest),
        payload.since_seconds = some 0 →
        (search_logs_post b now payload).items =
          LogBuffer.search b now
            (match payload.q with
             | some s => if s = "" then payload.query else some s
             | none => payload.query)
            payload.level none
            (max 1 (min (if payload.limit = 0 then 50 else payload.limit) 200))) := by
  refine ⟨log_search_zero_since, ?_, ?_⟩
  · intro b now q level limit s hs
    unfold LogBuffer.search
    have h0 : ¬ (s = 0) := by omega
    have hcl : max 1 (min s 31536000) = 1 := by omega
    have h1 : max 1 (min (1 : Int) 31536000) = 1 := by decide
    simp [h0, hcl, h1]
  · intro b now payload hz
    unfold search_logs_post
    dsimp only
    rw [hz, log_search_zero_since]

def c10buf : LogBuffer := ⟨[⟨-40000000, "WARN", "old", "m", []⟩], 2000⟩

def c10payload : LogSearchRequest :=
  { q := none, query := none, level := none, limit := 50, since_seconds := some 0 }

/-- C10 witness: concrete instances of all three parts. -/
theorem C10_witness :
    (LogBuffer.search c10buf 5 none none (some 0) 50 =
      LogBuffer.search c10buf 5 none none none 50) ∧
    (LogBuffer.search c10buf 5 none none (some (-3)) 50 =
      LogBuffer.search c10buf 5 none none (some 1) 50) ∧
    ((search_logs_post c10buf 5 c10payload).items =
      LogBuffer.search c10buf 5 none none none 50) :=
  ⟨C10_zero_since_no_time_filter.1 c10buf 5 none none 50,
   C10_zero_since_no_time_filter.2.1 c10buf 5 none none 50 (-3) (by decide),
   C10_zero_since_no_time_filter.2.2 c10buf 5 c10payload rfl⟩

/-! ## C8: log search clamping, ordering and matching -/

theorem searchGo_eq (pred : LogItem → Bool) (l : List LogItem) :
    ∀ cap : Nat, 1 ≤ cap → searchGo pred cap l = (l.filter pred).take cap := by
  induction l with
  | nil => intro cap hc; simp [searchGo]
  | cons it rest ih =>
      intro cap hc
      by_cases hp : pred it
      · by_cases hcap : cap ≤ 1
        · have h1 : cap = 1 := by omega
          subst h1
          simp [searchGo, hp]
        · have h2 : cap = (cap - 1) + 1 := by omega
          calc searchGo pred cap (it :: rest)
              = it :: searchGo pred (cap - 1) rest := by simp [searchGo, hp, hcap]
            _ = it :: ((rest.filter pred).take (cap - 1)) := by rw [ih (cap - 1) (by omega)]
            _ = ((it :: rest).filter pred).take cap := by
                rw [List.filter_cons_of_pos hp]
                conv_rhs => rw [h2]
                rw [List.take_succ_cons]
      · calc searchGo pred cap (it :: rest) = searchGo pred cap rest := by
              simp [searchGo, hp]
          _ = (rest.filter pred).take cap := ih cap hc
          _ = ((it :: rest).filter pred).take cap := by
              rw [List.filter_cons_of_neg (by simpa using hp)]

/-- Spec-side log match (for C8, amended): exact upper-cased level match when
a nonempty level is given; the query, when nonempty, must be a
case-sensitive substring of the message or of the comma-joined tags; a
nonzero supplied sinceSeconds restricts to timestamps within a window
clamped into [1 second, one year]; a zero or absent sinceSeconds applies no
time restriction. -/
def logSearchSpecMatch (now : Int) (q level : Option String) (since_seconds : Option Int)
    (it : LogItem) : Bool :=
  (match level with
   | some l => if l = "" then true else it.level = pyUpper l
   | none => true) &&
  (match q with
   | some qs => if qs = "" then true else (pyIn qs it.message || pyIn qs (joinComma it.tags))
   | none => true) &&
  (match since_seconds with
   | some s => if s = 0 then true else decide (now - max 1 (min s 31536000) ≤ it.ts)
   | none => true)

/-- C8 (amended): log search returns exactly the matching items, newest
first (reverse append order), truncated to limit clamped into [1, 200];
a nonzero sinceSeconds is clamped into [1 second, one year], while a zero
sinceSeconds applies no time filter at all — so "clamps any supplied
sinceSeconds to at most a one-year window" fails at zero (see the
counterexample). -/
theorem C8_log_search_clamped (b : LogBuffer) (now : Int) (q level : Option String)
    (since_seconds : Option Int) (limit : Int) :
    LogBuffer.search b now q level since_seconds limit =
      (b.buf.reverse.filter (logSearchSpecMatch now q level since_seconds)).take
        (max 1 (min limit 200)).toNat := by
  unfold LogBuffer.search
  dsimp only
  rw [searchGo_eq _ _ _ (by omega)]
  refine congrArg (List.take (max 1 (min limit 200)).toNat) ?_
  refine List.filter_congr ?_
  intro it hmem
  unfold logPred logSearchSpecMatch
  cases level with
  | none =>
      cases since_seconds with
      | none => rfl
      | some s => by_cases hs : s = 0 <;> simp [hs]
  | some l =>
      by_cases hl : l = ""
      · cases since_seconds with
        | none => simp [hl]
        | some s => by_cases hs : s = 0 <;> simp [hl, hs]
      · cases since_seconds with
        | none => simp [hl]
        | some s => by_cases hs : s = 0 <;> simp [hl, hs]

def c8old : LogItem := ⟨0, "INFO", "ancient", "m", []⟩

/-- C8 counterexample: with a supplied sinceSeconds of 0, an event far older
than one year is still returned, so the search window is not clamped to at
most a year for every supplied sinceSeconds. -/
theorem C8_counterexample :
    LogBuffer.search ⟨[c8old], 2000⟩ 100000000 none none (some 0) 50 = [c8old] ∧
    c8old.ts < 100000000 - 31536000 := by
  exact ⟨by decide, by decide⟩

/-! ## Lemmas about the stable descending sort and the search scan -/

theorem insDesc_length {α β : Type} [LinearOrder β] (key : α → β) (x : α) (l : List α) :
    (insDesc key x l).length = l.length + 1 := by
  induction l with
  | nil => rfl
  | cons y ys ih => unfold insDesc; split <;> simp [ih]

theorem stableSortDesc_length {α β : Type} [LinearOrder β] (key : α → β) (l : List α) :
    (stableSortDesc key l).length = l.length := by
  induction l with
  | nil => rfl
  | cons x xs ih =>
      unfold stableSortDesc
      rw [insDesc_length, ih]
      rfl

theorem mem_insDesc {α β : Type} [LinearOrder β] (key : α → β) (x : α) (l : List α) (z : α) :
    z ∈ insDesc key x l ↔ z = x ∨ z ∈ l := by
  induction l with
  | nil => simp [insDesc]
  | cons y ys ih =>
      unfold insDesc
      split
      · simp [List.mem_cons]
        try tauto
      · simp [List.mem_cons, ih]
        try tauto

theorem sorted_insDesc {α β : Type} [LinearOrder β] (key : α → β) (x : α) (l : List α)
    (hl : List.Pairwise (fun a b => key b ≤ key a) l) :
    List.Pairwise (fun a b => key b ≤ key a) (insDesc key x l) := by
  induction l with
  | nil => simp [insDesc]
  | cons y ys ih =>
      rcases List.pairwise_cons.mp hl with ⟨hy, hys⟩
      unfold insDesc
      split
      · rename_i hle
        refine List.pairwise_cons.mpr ⟨?_, hl⟩
        intro z hz
        rcases List.mem_cons.mp hz with rfl | hz
        · exact hle
        · exact le_trans (hy z hz) hle
      · rename_i hgt
        refine List.pairwise_cons.mpr ⟨?_, ih hys⟩
        intro z hz
        rcases (mem_insDesc key x ys z).mp hz with rfl | hz
        · exact le_of_lt (lt_of_not_le hgt)
        · exact hy z hz

theorem sorted_stableSortDesc {α β : Type} [LinearOrder β] (key : α → β) (l : List α) :
    List.Pairwise (fun a b => key b ≤ key a) (stableSortDesc key l) := by
  induction l with
  | nil => exact List.Pairwise.nil
  | cons x xs ih => exact sorted_insDesc key x _ ih

theorem insDesc_map {α α' β : Type} [LinearOrder β] (key : α → β) (key' : α' → β)
    (g : α → α') (hkey : ∀ a, key' (g a) = key a) (x : α) (l : List α) :
    insDesc key' (g x) (l.map g) = (insDesc key x l).map g := by
  induction l with
  | nil => rfl
  | cons y ys ih =>
      simp only [List.map_cons]
      unfold insDesc
      rw [hkey, hkey]
      split <;> simp [ih]

theorem stableSortDesc_map {α α' β : Type} [LinearOrder β] (key : α → β) (key' : α' → β)
    (g : α → α') (hkey : ∀ a, key' (g a) = key a) (l : List α) :
    stableSortDesc key' (l.map g) = (stableSortDesc key l).map g := by
  induction l with
  | nil => rfl
  | cons x xs ih =>
      simp only [List.map_cons]
      unfold stableSortDesc
      rw [ih, insDesc_map key key' g hkey]

theorem searchScan_append (ql tagl catl stl : String) (l1 l2 : List ExperienceRule) :
    searchScan ql tagl catl stl (l1 ++ l2) =
      searchScan ql tagl catl stl l1 ++ searchScan ql tagl catl stl l2 := by
  induction l1 with
  | nil => rfl
  | cons r rest ih =>
      simp only [List.cons_append, searchScan]
      split_ifs <;> simp [ih]

/-! ## C9: search monotonicity under insertion -/

theorem pyOrStr_some_empty (q : String) : pyOrStr (some q) "" = q := by
  unfold pyOrStr
  split <;> simp_all

/-- The length of a search result is the clamped limit capped by the number
of surviving scanned rules. -/
theorem search_length (s : ExperienceStore) (q tag category status : Option String)
    (limit : Int) :
    (ExperienceStore.search s q tag category status limit).length =
      min (max 1 (min limit 200)).toNat
        (searchScan (pyLower (pyStrip (pyOrStr q ""))) (pyLower (pyStrip (pyOrStr tag "")))
          (pyLower (pyStrip (pyOrStr category ""))) (pyLower (pyStrip (pyOrStr status "")))
          (dictValues s.by_id)).length := by
  unfold ExperienceStore.search
  dsimp only
  rw [List.length_map, List.length_take, stableSortDesc_length]

/-- C9 (amended): adding a rule whose lower-cased title contains the
normalized query strictly increases the search count by (exactly) one,
provided the addition actually inserts a fresh row (it is not absorbed by
dedup and its id is fresh) and the pre-add count is below the clamped
limit.  When the count already equals the clamped limit, truncation keeps
it unchanged, so the claim as stated fails (see the counterexample). -/
theorem C9_search_monotonic (s : ExperienceStore) (r : ExperienceRule) (d u : Bool)
    (g n : String) (q : String) (limit : Int) (out : ExperienceStore × ExperienceRule)
    (hq : pyIn (pyLower (pyStrip q)) (pyLower r.title) = true)
    (hno : ¬ (d = true ∧ dictHas s.id_by_fp (computedFp r g n) = true))
    (hfresh : dictHas s.by_id (ruleIdAfter r g) = false)
    (hadd : ExperienceStore.add s r d u g n = some out)
    (hroom : (ExperienceStore.search s (some q) none none none limit).length <
      (max 1 (min limit 200)).toNat) :
    (ExperienceStore.search out.1 (some q) none none none limit).length =
      (ExperienceStore.search s (some q) none none none limit).length + 1 := by
  obtain ⟨ca, heq⟩ := add_not_hit s r d u g n hno
  rw [heq] at hadd
  cases hadd
  set rr : ExperienceRule := { r.ensure_ids g n with created_at := ca } with hrr
  have htitle : rr.title = r.title := ensure_ids_title r g n
  have hnil : pyLower (pyStrip (pyOrStr none "")) = "" := rfl
  have hvals : dictValues (dictSet s.by_id (ruleIdAfter r g) rr) =
      dictValues s.by_id ++ [rr] := by
    rw [dictSet_of_not_has rr hfresh]
    unfold dictValues
    rw [List.map_append]
    rfl
  have hscan1 : (searchScan (pyLower (pyStrip q)) "" "" "" [rr]).length = 1 := by
    unfold searchScan
    rw [if_neg (by simp), if_neg (by simp), if_neg (by simp),
      if_neg (by rw [htitle, hq]; simp)]
    rfl
  rw [search_length, pyOrStr_some_empty, hnil] at hroom
  rw [search_length, search_length, pyOrStr_some_empty, hnil, hvals, searchScan_append,
    List.length_append, hscan1]
  omega

def c9wr : ExperienceRule := { title := "qa", content := "x" }

/-- C9 witness: on the empty store, inserting a rule titled "qa" makes the
count of `search(q="q")` go from 0 to 1. -/
theorem C9_witness :
    ∃ out, ExperienceStore.add emptyStore c9wr false false "g1" "t1" = some out ∧
      (ExperienceStore.search out.1 (some "q") none none none 5).length =
        (ExperienceStore.search emptyStore (some "q") none none none 5).length + 1 := by
  cases hadd : ExperienceStore.add emptyStore c9wr false false "g1" "t1" with
  | none => exact absurd hadd (by decide)
  | some out =>
      exact ⟨out, rfl, C9_search_monotonic emptyStore c9wr false false "g1" "t1" "q" 5 out
        (by decide) (by simp) (by decide) hadd (by decide)⟩

def c9r1 : ExperienceRule := { title := "qa", content := "ca", fingerprint := some "f1" }

def c9s : ExperienceStore := ⟨[("id1", c9r1)], []⟩

def c9r2 : ExperienceRule := { title := "qx", content := "cb" }

def c9r2s : ExperienceRule :=
  { c9r2 with
    id := some "id2"
    created_at := some "t1"
    updated_at := some "t1"
    fingerprint := some (ExperienceStore.make_fingerprint "qx" "cb") }

def c9s2 : ExperienceStore :=
  ⟨[("id1", c9r1), ("id2", c9r2s)],
   [(ExperienceStore.make_fingerprint "qx" "cb", "id2")]⟩

/-- C9 counterexample: with `limit = 1` (clamped lower bound) and one rule
already matching "q", adding a second rule whose title contains "q" (with
dedup disabled, so nothing is absorbed) leaves `search(q="q", limit=1).count`
at 1 — the count does not strictly increase, because the result is
truncated to the clamped limit. -/
theorem C9_counterexample :
    (ExperienceStore.search c9s (some "q") none none none 1).length = 1 ∧
    ExperienceStore.add c9s c9r2 false false "id2" "t1" = some (c9s2, c9r2s) ∧
    pyIn (pyLower (pyStrip "q")) (pyLower c9r2s.title) = true ∧
    (ExperienceStore.search c9s2 (some "q") none none none 1).length = 1 :=
  ⟨by decide, by decide, by decide, by decide⟩

/-! ## C5: the search pipeline against its specification

The following definitions follow the spec's wording for C5 (the one allowed
spec-side definition for a refinement claim): conjunctive filtering, the
additive ranking score, stable descending order, truncation to the clamped
limit. -/

/-- Normalization applied to every filter argument (trim, lower-case). -/
def normQuery (o : Option String) : String := pyLower (pyStrip (pyOrStr o ""))

/-- Spec-side conjunctive filter: exact case-insensitive category and status
match, tag as substring of the comma-joined lower-cased tag list, and, when
text is given, a substring match in title or content. -/
def specPasses (ql tagl catl stl : String) (r : ExperienceRule) : Bool :=
  (catl = "" || pyLower (pyOrStr r.category "") = catl) &&
  (stl = "" || pyLower r.status = stl) &&
  (tagl = "" || pyIn tagl (joinComma (r.tags.map pyLower))) &&
  (ql = "" || pyIn ql (pyLower r.title) || pyIn ql (pyLower r.content))

/-- Spec-side ranking score: 2.0 for a title hit plus 1.0 for a content hit
plus 0.5 times confidence plus 0.5 times weight. -/
def specScore (ql : String) (r : ExperienceRule) : ℚ :=
  (if ql ≠ "" ∧ pyIn ql (pyLower r.title) = true then 2 else 0) +
  (if ql ≠ "" ∧ pyIn ql (pyLower r.content) = true then 1 else 0) +
  (1/2) * r.confidence + (1/2) * r.weight

/-- Spec-side search: filter conjunctively, order by descending score with
ties kept in discovery order (stable sort), truncate to the limit clamped
into [1, 200]. -/
def searchSpec (s : ExperienceStore) (q tag category status : Option String)
    (limit : Int) : List ExperienceRule :=
  (stableSortDesc (specScore (normQuery q))
      ((dictValues s.by_id).filter
        (specPasses (normQuery q) (normQuery tag) (normQuery category) (normQuery status)))).take
    (max 1 (min limit 200)).toNat

theorem searchScan_eq_filterMap (ql tagl catl stl : String)
    (rules : List ExperienceRule) :
    searchScan ql tagl catl stl rules =
      (rules.filter (specPasses ql tagl catl stl)).map
        (fun r => (specScore ql r, r)) := by
  induction rules with
  | nil => rfl
  | cons r rest ih =>
      simp only [searchScan]
      by_cases h1 : catl ≠ "" ∧ pyLower (pyOrStr r.category "") ≠ catl
      · rw [if_pos h1, ih,
          List.filter_cons_of_neg (by simp [specPasses, h1.1, h1.2])]
      · rw [if_neg h1]
        have p1 : (catl = "" || pyLower (pyOrStr r.category "") = catl) = true := by
          by_cases hc : catl = ""
          · simp [hc]
          · push_neg at h1
            simp [h1 hc]
        by_cases h2 : stl ≠ "" ∧ pyLower r.status ≠ stl
        · rw [if_pos h2, ih,
            List.filter_cons_of_neg (by simp [specPasses, h2.1, h2.2])]
        · rw [if_neg h2]
          have p2 : (stl = "" || pyLower r.status = stl) = true := by
            by_cases hc : stl = ""
            · simp [hc]
            · push_neg at h2
              simp [h2 hc]
          by_cases h3 : tagl ≠ "" ∧ ¬ pyIn tagl (joinComma (r.tags.map pyLower)) = true
          · rw [if_pos h3, ih,
              List.filter_cons_of_neg (by simp [specPasses, h3.1, h3.2])]
          · rw [if_neg h3]
            have p3 : (tagl = "" || pyIn tagl (joinComma (r.tags.map pyLower))) = true := by
              by_cases hc : tagl = ""
              · simp [hc]
              · push_neg at h3
                simp [h3 hc]
            by_cases h4 : ql ≠ "" ∧
                ¬ (pyIn ql (pyLower r.title) = true ∨ pyIn ql (pyLower r.content) = true)
            · rw [if_pos h4, ih,
                List.filter_cons_of_neg (by
                  push_neg at h4
                  simp [specPasses, h4.1, h4.2.1, h4.2.2])]
            · rw [if_neg h4]
              have p4 : (ql = "" || pyIn ql (pyLower r.title) ||
                  pyIn ql (pyLower r.content)) = true := by
                by_cases hc : ql = ""
                · simp [hc]
                · push_neg at h4
                  rcases h4 hc with ht | ht <;> simp [ht]
              rw [List.filter_cons_of_pos (by simp [specPasses, p1, p2, p3, p4]),
                List.map_cons, ih]
              have hsc : ((if ql ≠ "" then
                    (if pyIn ql (pyLower r.title) = true then (2:ℚ) else 0) +
                      (if pyIn ql (pyLower r.content) = true then 1 else 0)
                  else 0) + (r.confidence * (1/2) + r.weight * (1/2))) = specScore ql r := by
                unfold specScore
                by_cases hql : ql = ""
                · simp [hql]
                  ring
                · by_cases ht : pyIn ql (pyLower r.title) = true <;>
                    by_cases hc : pyIn ql (pyLower r.content) = true <;>
                    simp [hql, ht, hc] <;> ring
              rw [hsc]

/-- C5: `search` equals the spec-worded pipeline (conjunctive filters, the
2.0/1.0/0.5·confidence/0.5·weight score, stable descending order with ties
in discovery order, truncation to limit clamped into [1, 200]); moreover
the returned sequence is sorted by nonincreasing score. -/
theorem C5_search_spec (s : ExperienceStore) (q tag category status : Option String)
    (limit : Int) :
    ExperienceStore.search s q tag category status limit =
      searchSpec s q tag category status limit ∧
    List.Pairwise
      (fun a b => specScore (normQuery q) b ≤ specScore (normQuery q) a)
      (ExperienceStore.search s q tag category status limit) := by
  have hmain : ExperienceStore.search s q tag category status limit =
      searchSpec s q tag category status limit := by
    unfold ExperienceStore.search searchSpec normQuery
    dsimp only
    rw [searchScan_eq_filterMap]
    rw [stableSortDesc_map (specScore (pyLower (pyStrip (pyOrStr q "")))) (fun p => p.1)
      (fun r => (specScore (pyLower (pyStrip (pyOrStr q ""))) r, r)) (fun a => rfl)]
    rw [← List.map_take, List.map_map]
    have hid : ((fun x : ℚ × ExperienceRule => x.2) ∘
        fun r => (specScore (pyLower (pyStrip (pyOrStr q ""))) r, r)) = id := rfl
    rw [hid, List.map_id]
  refine ⟨hmain, ?_⟩
  rw [hmain]
  unfold searchSpec
  exact (sorted_stableSortDesc (specScore (normQuery q)) _).sublist
    (List.take_sublist _ _)

/-! ## C3: harvest idempotence (per-fingerprint absorption) -/

/-- The store rows carrying a given fingerprint. -/
def rowsWithFp (s : ExperienceStore) (f : String) : List (String × ExperienceRule) :=
  s.by_id.filter (fun p => p.2.fingerprint = some f)

theorem harvestCand_id (cfg : ExperienceAutoCandidateConfig) (key : String) (cnt : Nat)
    (uid : String) : ruleIdAfter (harvestCand cfg key cnt uid) "" = uid := by
  unfold ruleIdAfter harvestCand
  dsimp only
  split
  · rename_i h
    exact h.symm
  · rfl

theorem harvestCand_status (cfg : ExperienceAutoCandidateConfig) (key : String) (cnt : Nat)
    (uid : String) : (harvestCand cfg key cnt uid).status = "draft" := rfl

/-- The invariants of the candidate-creation loop: a fingerprint already
present in the index never gains a second row or a re-pointed index entry,
and the `created` counter advances exactly by the number of new draft rows. -/
theorem harvestLoop_invariants (cfg : ExperienceAutoCandidateConfig) (nowS : String) :
    ∀ (ordered : List (String × Nat)) (ids : List String) (store : ExperienceStore)
      (created : Nat) (cands : List ExperienceRule)
      (store' : ExperienceStore) (created' : Nat) (cands' : List ExperienceRule),
      (∀ i ∈ ids, dictHas store.by_id i = false) →
      ids.Nodup →
      ordered.length ≤ ids.length →
      harvestLoop cfg nowS ordered ids store created cands = some (store', created', cands') →
      (∀ f, (dictGet store.id_by_fp f).isSome →
          dictGet store'.id_by_fp f = dictGet store.id_by_fp f ∧
          rowsWithFp store' f = rowsWithFp store f) ∧
      created' + draftCount store = created + draftCount store' := by
  intro ordered
  induction ordered with
  | nil =>
      intro ids store created cands store' created' cands' hfr hnd hlen hloop
      simp only [harvestLoop] at hloop
      cases hloop
      exact ⟨fun f hf => ⟨rfl, rfl⟩, by omega⟩
  | cons kc rest ih =>
      intro ids store created cands store' created' cands' hfr hnd hlen hloop
      obtain ⟨key, cnt⟩ := kc
      obtain ⟨uid, tl, rfl⟩ : ∃ uid tl, ids = uid :: tl := by
        cases ids with
        | nil => simp at hlen
        | cons a t => exact ⟨a, t, rfl⟩
      have hfrt : ∀ i ∈ tl, dictHas store.by_id i = false :=
        fun i hi => hfr i (List.mem_cons_of_mem _ hi)
      have hndt : tl.Nodup := (List.nodup_cons.mp hnd).2
      have hlent : rest.length ≤ tl.length := by
        simp only [List.length_cons] at hlen
        omega
      simp only [harvestLoop] at hloop
      by_cases hbreak : (created : Int) ≥
          (if cfg.max_candidates = 0 then 10 else cfg.max_candidates)
      · rw [if_pos hbreak] at hloop
        cases hloop
        exact ⟨fun f hf => ⟨rfl, rfl⟩, by omega⟩
      · rw [if_neg hbreak] at hloop
        by_cases hskip : (cnt : Int) < (if cfg.min_count = 0 then 1 else cfg.min_count)
        · rw [if_pos hskip] at hloop
          exact ih (uid :: tl) store created cands store' created' cands' hfr hnd
            (by simp only [List.length_cons]; omega) hloop
        · rw [if_neg hskip] at hloop
          set cand := harvestCand cfg key cnt ((uid :: tl).headD "") with hcand
          by_cases hhit : dictHas store.id_by_fp (computedFp cand "" nowS) = true
          · rw [dictHas_eq_isSome] at hhit
            cases hidx : dictGet store.id_by_fp (computedFp cand "" nowS) with
            | none => rw [hidx] at hhit; simp at hhit
            | some exId =>
                cases hlive : dictGet store.by_id exId with
                | none =>
                    rw [add_dedup_stale store cand false "" nowS exId hidx hlive] at hloop
                    exact absurd hloop (by simp)
                | some ex =>
                    rw [add_dedup_hit store cand false "" nowS exId ex hidx hlive] at hloop
                    dsimp only at hloop
                    rw [if_neg (lt_irrefl (draftCount store))] at hloop
                    split at hloop
                    · exact ih tl store (created + 0) (cands ++ [ex]) store' created' cands'
                        hfrt hndt hlent hloop
                    · exact ih tl store created cands store' created' cands'
                        hfrt hndt hlent hloop
          · have hno : ¬ (true = true ∧
                dictHas store.id_by_fp (computedFp cand "" nowS) = true) :=
              fun hc => hhit hc.2
            rw [add_insert_plain store cand true "" nowS hno] at hloop
            dsimp only at hloop
            have hridu : ruleIdAfter cand "" = uid := by
              rw [hcand]
              exact harvestCand_id cfg key cnt _
            have hfru : dictHas store.by_id uid = false := hfr uid (List.mem_cons_self uid tl)
            set candE : ExperienceRule := cand.ensure_ids "" nowS with hcandE
            have hrow : dictSet store.by_id (ruleIdAfter cand "") candE =
                store.by_id ++ [(uid, candE)] := by
              rw [hridu, dictSet_of_not_has candE hfru]
            have hstatus : pyLower candE.status = "draft" := by
              rw [hcandE, ensure_ids_status, hcand, harvestCand_status]
              rfl
            have hdraft2 : draftCount ⟨store.by_id ++ [(uid, candE)],
                dictSet store.id_by_fp (computedFp cand "" nowS) (ruleIdAfter cand "")⟩ =
                draftCount store + 1 := by
              unfold draftCount ExperienceStore.list_all dictValues
              rw [List.map_append, List.filter_append, List.length_append]
              simp [hstatus]
            rw [hrow] at hloop
            rw [hdraft2] at hloop
            rw [if_pos (Or.inl (by omega)), if_pos (by omega)] at hloop
            have hfr2 : ∀ i ∈ tl,
                dictHas (store.by_id ++ [(uid, candE)]) i = false := by
              intro i hi
              rw [dictHas_append, hfrt i hi]
              have h2 : uid ≠ i := fun hh => (List.nodup_cons.mp hnd).1 (hh ▸ hi)
              simp [dictHas, h2]
            have hres := ih tl ⟨store.by_id ++ [(uid, candE)],
                dictSet store.id_by_fp (computedFp cand "" nowS) (ruleIdAfter cand "")⟩
              (created + 1) (cands ++ [candE]) store' created' cands' hfr2 hndt hlent hloop
            have hfpE : candE.fingerprint = some (computedFp cand "" nowS) := by
              rw [hcandE]
              exact ensure_ids_fingerprint_eq cand "" nowS
            constructor
            · intro f hf
              have hne : f ≠ computedFp cand "" nowS := by
                intro hfe
                subst hfe
                rw [dictHas_eq_isSome] at hhit
                rw [Option.isSome_iff_exists] at hf
                obtain ⟨v, hv⟩ := hf
                rw [hv] at hhit
                simp at hhit
              have hidx2 : dictGet (dictSet store.id_by_fp (computedFp cand "" nowS)
                  (ruleIdAfter cand "")) f = dictGet store.id_by_fp f :=
                dictGet_dictSet_ne _ _ _ _ hne
              have hf2 : (dictGet (dictSet store.id_by_fp (computedFp cand "" nowS)
                  (ruleIdAfter cand "")) f).isSome := by rw [hidx2]; exact hf
              obtain ⟨ha, hb⟩ := hres.1 f hf2
              refine ⟨by rw [ha, hidx2], ?_⟩
              rw [hb]
              unfold rowsWithFp
              dsimp only
              rw [List.filter_append]
              have : (List.filter (fun p => decide (p.2.fingerprint = some f))
                  [(uid, candE)]) = [] := by
                simp [hfpE]
                exact Ne.symm hne
              rw [this, List.append_nil]
            · have := hres.2
              rw [hdraft2] at this
              omega

/-- C3 (amended): running harvest twice in succession never creates a second
draft rule carrying a fingerprint the first run introduced — the second
run's dedup-protected insertion is absorbed for every such fingerprint and
its `created` total counts only genuinely new draft rows.  Because the
harvest fingerprint includes the observed count, a qualifying event
entering or leaving the `since` window between the runs changes the count
and can yield a second rule for the same (module, level) pattern — which is
why the claim as stated fails (see the counterexample). -/
theorem C3_harvest_absorption (cfg : ExperienceAutoCandidateConfig)
    (env0 env1 env2 : HarvestEnv) (now1 now2 : Int) (nowS1 nowS2 : String)
    (ids1 ids2 : List String) (c1 c2 : Nat) (cands1 cands2 : List ExperienceRule)
    (h1 : harvest_auto_candidates cfg env0 now1 nowS1 ids1 = some (env1, c1, cands1))
    (h2 : harvest_auto_candidates cfg env1 now2 nowS2 ids2 = some (env2, c2, cands2))
    (hfr : ∀ i ∈ ids2, dictHas env1.store.by_id i = false)
    (hnd : ids2.Nodup)
    (hlen : (harvestOrdered cfg env1.logs now2).length ≤ ids2.length) :
    (∀ f, dictGet env0.store.id_by_fp f = none →
        (dictGet env1.store.id_by_fp f).isSome →
        dictGet env2.store.id_by_fp f = dictGet env1.store.id_by_fp f ∧
        rowsWithFp env2.store f = rowsWithFp env1.store f) ∧
    c2 + draftCount env1.store = draftCount env2.store := by
  unfold harvest_auto_candidates at h2
  by_cases hen : cfg.enabled
  · rw [if_neg (by simp [hen])] at h2
    dsimp only at h2
    by_cases hlow : ((harvestRecent cfg env1.logs now2).length : Int) < max 1 cfg.min_samples
    · rw [if_pos hlow] at h2
      cases h2
      exact ⟨fun f h0 hf => ⟨rfl, rfl⟩, by dsimp only; omega⟩
    · rw [if_neg hlow] at h2
      cases hloop : harvestLoop cfg nowS2 (harvestOrdered cfg env1.logs now2) ids2
          env1.store 0 [] with
      | none => rw [hloop] at h2; exact absurd h2 (by simp)
      | some out =>
          obtain ⟨storeX, createdX, candsX⟩ := out
          rw [hloop] at h2
          dsimp only at h2
          have hres := harvestLoop_invariants cfg nowS2
            (harvestOrdered cfg env1.logs now2) ids2 env1.store 0 []
            storeX createdX candsX hfr hnd hlen hloop
          cases h2
          refine ⟨fun f h0 hf => hres.1 f hf, ?_⟩
          have h := hres.2
          dsimp only
          omega
  · rw [if_pos (by simp [hen])] at h2
    cases h2
    exact ⟨fun f h0 hf => ⟨rfl, rfl⟩, by dsimp only; omega⟩


/-- Harvest configuration used by the C3 concrete scenarios: one pattern is
enough (`min_count = 1`, `min_samples = 1`), WARN only, 900 s window. -/
def c3cfg : ExperienceAutoCandidateConfig :=
  { enabled := true
    min_count := 1
    include_levels := ["WARN"]
    since_seconds := 900
    min_confidence := 3/5
    max_candidates := 10
    min_samples := 1 }

/-- One WARN event from module `m` at t = 1000. -/
def c3wBuf : LogBuffer := ⟨[⟨1000, "WARN", "w1", "m", []⟩], 2000⟩

def c3wEnv0 : HarvestEnv := ⟨emptyStore, c3wBuf, ⟨[], []⟩⟩

/-- First harvest run at `now = 1000` (uuid `"v1"`). -/
def c3wRes1 : HarvestEnv × Nat × List ExperienceRule :=
  (harvest_auto_candidates c3cfg c3wEnv0 1000 "t1" ["v1"]).getD ⟨c3wEnv0, 0, []⟩

/-- Second harvest run, same clock (uuid `"v2"`). -/
def c3wRes2 : HarvestEnv × Nat × List ExperienceRule :=
  (harvest_auto_candidates c3cfg c3wRes1.1 1000 "t2" ["v2"]).getD ⟨c3wEnv0, 0, []⟩

/-- C3 witness: with the clock unchanged between the runs both harvests
succeed, and the absorption theorem applies — the second run leaves every
fingerprint the first run introduced untouched and its `created` total is
exactly the draft-count increase. -/
theorem C3_witness :
    harvest_auto_candidates c3cfg c3wEnv0 1000 "t1" ["v1"]
      = some (c3wRes1.1, c3wRes1.2.1, c3wRes1.2.2) ∧
    harvest_auto_candidates c3cfg c3wRes1.1 1000 "t2" ["v2"]
      = some (c3wRes2.1, c3wRes2.2.1, c3wRes2.2.2) ∧
    ((∀ f, dictGet c3wEnv0.store.id_by_fp f = none →
        (dictGet c3wRes1.1.store.id_by_fp f).isSome →
        dictGet c3wRes2.1.store.id_by_fp f = dictGet c3wRes1.1.store.id_by_fp f ∧
        rowsWithFp c3wRes2.1.store f = rowsWithFp c3wRes1.1.store f) ∧
      c3wRes2.2.1 + draftCount c3wRes1.1.store = draftCount c3wRes2.1.store) :=
  ⟨by decide, by decide,
    C3_harvest_absorption c3cfg c3wEnv0 c3wRes1.1 c3wRes2.1 1000 1000 "t1" "t2"
      ["v1"] ["v2"] c3wRes1.2.1 c3wRes2.2.1 c3wRes1.2.2 c3wRes2.2.2
      (by decide) (by decide) (by decide) (by decide) (by decide)⟩

/-- Two WARN events from module `m`, at t = 100 and t = 1000. -/
def c3xBuf : LogBuffer :=
  ⟨[⟨100, "WARN", "w1", "m", []⟩, ⟨1000, "WARN", "w2", "m", []⟩], 2000⟩

def c3xEnv0 : HarvestEnv := ⟨emptyStore, c3xBuf, ⟨[], []⟩⟩

/-- First harvest run at `now = 1000`: both events are inside the 900 s
window, so the pattern count is 2. -/
def c3xRes1 : HarvestEnv × Nat × List ExperienceRule :=
  (harvest_auto_candidates c3cfg c3xEnv0 1000 "t1" ["u1"]).getD ⟨c3xEnv0, 0, []⟩

/-- Second harvest run one second later: the t = 100 event has left the
window, so the pattern count is 1 and the fingerprint differs. -/
def c3xRes2 : HarvestEnv × Nat × List ExperienceRule :=
  (harvest_auto_candidates c3cfg c3xRes1.1 1001 "t2" ["u2"]).getD ⟨c3xEnv0, 0, []⟩

/-- C3 counterexample: between the two runs the only appended log line is
the harvester's own INFO telemetry — no new qualifying (WARN) event — yet
the second run creates a second draft rule for the very same
`(module, level)` pattern, because the window slide changed the observed
count and the count is part of the harvest fingerprint. -/
theorem C3_counterexample :
    (harvest_auto_candidates c3cfg c3xEnv0 1000 "t1" ["u1"]).isSome = true ∧
    c3xRes1.2.1 = 1 ∧
    (c3xRes1.1.store.list_all.filter
      (fun r => decide (r.tags = ["m", "WARN", "auto"]) &&
        decide (r.status = "draft"))).length = 1 ∧
    (c3xRes1.1.logs.buf.drop c3xBuf.buf.length).map LogItem.level = ["INFO"] ∧
    (harvest_auto_candidates c3cfg c3xRes1.1 1001 "t2" ["u2"]).isSome = true ∧
    c3xRes2.2.1 = 1 ∧
    (c3xRes2.1.store.list_all.filter
      (fun r => decide (r.tags = ["m", "WARN", "auto"]) &&
        decide (r.status = "draft"))).length = 2 := by
  decide

end SRB
